import Mathlib

/-!
Verification of the postal-address territory resolution engine and the
address normalizer/validator, shallowly embedded from the Python sources
`postal_address/territory.py` and `address.py`.

The ISO 3166 reference dataset (pycountry) is an external collaborator of
the program: it is modelled by an abstract database `DB` of country and
subdivision records, and theorems take explicit hypotheses stating the
well-formedness facts of the real dataset they rely on.  A concrete
`sampleDB`, faithful to the real pycountry entries it contains, is used to
witness the hypotheses.
-/

/-- Model of Python `str.strip()`: drop whitespace at both ends. -/
def pyStrip (s : String) : String :=
  ⟨((s.data.dropWhile Char.isWhitespace).reverse.dropWhile Char.isWhitespace).reverse⟩

/-- Model of Python `str.upper()` for the ASCII code strings at play. -/
def pyUpper (s : String) : String :=
  ⟨s.data.map Char.toUpper⟩

/-- Model of Python `code.strip().upper()`. -/
def pyStripUpper (s : String) : String :=
  pyUpper (pyStrip s)

deriving instance DecidableEq for Except

/-- A country record of the external territory database (pycountry). -/
structure CountryRec where
  alpha_2 : String
  name : String
deriving DecidableEq, Repr

/-- A subdivision record of the external territory database (pycountry). -/
structure SubdivisionRec where
  code : String
  name : String
  typ : String
  parent_code : String
  country_code : String
deriving DecidableEq, Repr

/-- The external territory database: iterable countries and subdivisions
with lookup by code. -/
structure DB where
  countries : List CountryRec
  subdivisions : List SubdivisionRec
deriving DecidableEq, Repr

/-- Model of `pycountry.countries.get(alpha_2=c)` (None on failure). -/
def DB.getCountry (db : DB) (c : String) : Option CountryRec :=
  db.countries.find? (fun r => r.alpha_2 = c)

/-- Model of `pycountry.subdivisions.get(code=c)` (None on failure). -/
def DB.getSubdivision (db : DB) (c : String) : Option SubdivisionRec :=
  db.subdivisions.find? (fun r => r.code = c)

/-- A `codes.update(recursive_call(...))` loop over a list of codes in the
`Option` monad: accumulate the union of the recursive results, `none` as
soon as one recursive call is `none`. -/
def optUnionFoldl (f : String → Option (Finset String))
    (init : Option (Finset String)) (l : List String) :
    Option (Finset String) :=
  l.foldl
    (fun acc x =>
      match acc, f x with
      | some a, some s => some (a ∪ s)
      | _, _ => none)
    init

namespace Territory

/-- Definition `FOREIGN_TERRITORIES_MAPPING` from territory.py: valid country codes of
foreign territories mapped to the country they are attached to. -/
def FOREIGN_TERRITORIES_MAPPING : List (String × String) := [
  ("CC", "AU"), ("HM", "AU"), ("JE", "BR"), ("HK", "CN"), ("MO", "CN"),
  ("FO", "DK"), ("AX", "FI"), ("AQ", "FR"), ("BL", "FR"), ("GF", "FR"),
  ("GP", "FR"), ("GY", "FR"), ("MF", "FR"), ("MQ", "FR"), ("NC", "FR"),
  ("PF", "FR"), ("PM", "FR"), ("RE", "FR"), ("TF", "FR"), ("WF", "FR"),
  ("YT", "FR"), ("GI", "GB"), ("IM", "GB"), ("IO", "GB"), ("PN", "GB"),
  ("SH", "GB"), ("VG", "GB"), ("BQ", "NL"), ("SX", "NL"), ("BV", "NO"),
  ("SJ", "NO"), ("AS", "US"), ("GU", "US"), ("MP", "US"), ("VI", "US")]

/-- Definition `COUNTRY_ALIASES` from territory.py. -/
def COUNTRY_ALIASES : List (String × String) := [
  ("UK", "GB"), ("EL", "GR")]

/-- Definition `SUBDIVISION_COUNTRIES` from territory.py: subdivision codes mapped to
their officially assigned ISO 3166-1 alpha-2 country codes. -/
def SUBDIVISION_COUNTRIES : List (String × String) := [
  ("CN-71", "TW"), ("CN-91", "HK"), ("CN-92", "MO"), ("FI-01", "AX"),
  ("FR-BL", "BL"), ("FR-GF", "GF"), ("FR-GP", "GP"), ("FR-MF", "MF"),
  ("FR-MQ", "MQ"), ("FR-NC", "NC"), ("FR-PF", "PF"), ("FR-PM", "PM"),
  ("FR-RE", "RE"), ("FR-TF", "TF"), ("FR-WF", "WF"), ("FR-YT", "YT"),
  ("NL-AW", "AW"), ("NL-CW", "CW"), ("NL-SX", "SX"), ("NO-21", "SJ"),
  ("NO-22", "SJ"), ("US-AS", "AS"), ("US-GU", "GU"), ("US-MP", "MP"),
  ("US-PR", "PR"), ("US-UM", "UM"), ("US-VI", "VI")]

/-- Definition `SUBDIVISION_ALIASES` from territory.py. -/
def SUBDIVISION_ALIASES : List (String × String) := [
  ("NL-BQ1", "BQ-BO"), ("NL-BQ2", "BQ-SA"), ("NL-BQ3", "BQ-SE")]

/-- Definition `FOREIGN_TERRITORIES_ALIAS_TO_COUNTRY` from territory.py. -/
def FOREIGN_TERRITORIES_ALIAS_TO_COUNTRY : List (String × String) := [
  ("DG", "IO"), ("FX", "FR"), ("EA", "ES")]

/-- Definition `COUNTRY_ALIAS_TO_SUBDIVISION` from territory.py. -/
def COUNTRY_ALIAS_TO_SUBDIVISION : List (String × String) := [
  ("AC", "SH-AC"), ("CP", "FR-CP"), ("IC", "ES-CN"), ("TA", "SH-TA")]

/-- Definition `REVERSE_MAPPING` from territory.py, as the set of codes associated to a
key.  The first construction loop inverts `SUBDIVISION_COUNTRIES` (the key is
the target, the entries are the alias codes); the second loop records, for
each of the four remaining tables, the targets under the alias key itself
(those tables are entered without inversion). -/
def REVERSE_MAPPING (c : String) : List String :=
  (SUBDIVISION_COUNTRIES.filter (fun p => p.2 = c)).map (fun p => p.1) ++
  ((FOREIGN_TERRITORIES_ALIAS_TO_COUNTRY ++ COUNTRY_ALIASES ++
    SUBDIVISION_ALIASES ++ FOREIGN_TERRITORIES_MAPPING).filter
      (fun p => p.1 = c)).map (fun p => p.2)

/-- Definition `supported_country_codes()` from territory.py: ISO 3166-1 alpha-2 codes
of the database plus the ISO and EC exception keys. -/
def supported_country_codes (db : DB) : List String :=
  db.countries.map (fun r => r.alpha_2) ++
  COUNTRY_ALIASES.map (fun p => p.1) ++
  FOREIGN_TERRITORIES_ALIAS_TO_COUNTRY.map (fun p => p.1) ++
  COUNTRY_ALIAS_TO_SUBDIVISION.map (fun p => p.1)

/-- Definition `supported_subdivision_codes()` from territory.py. -/
def supported_subdivision_codes (db : DB) : List String :=
  db.subdivisions.map (fun r => r.code)

/-- Definition `supported_territory_codes()` from territory.py. -/
def supported_territory_codes (db : DB) : List String :=
  supported_country_codes db ++ supported_subdivision_codes db

/-- Definition `territory_attachment` from territory.py. -/
def territory_attachment (country_code : String) : String :=
  (FOREIGN_TERRITORIES_MAPPING.lookup country_code).getD country_code

/-- Definition `normalize_territory_code` from territory.py.  The `ValueError` raised on
an unrecognized code is modelled by `Except.error`. -/
def normalize_territory_code (db : DB) (territory_code : String)
    (resolve_aliases : Bool := true) (resole_foreign_territory : Bool := false) :
    Except String String :=
  let tc0 := pyStripUpper territory_code
  if tc0 ∉ supported_territory_codes db then
    .error "Unrecognized territory code."
  else
    let tc1 := (FOREIGN_TERRITORIES_ALIAS_TO_COUNTRY.lookup tc0).getD tc0
    let tc2 := (COUNTRY_ALIASES.lookup tc1).getD tc1
    let tc3 := if resolve_aliases then (SUBDIVISION_ALIASES.lookup tc2).getD tc2 else tc2
    let tc4 := if resolve_aliases then (SUBDIVISION_COUNTRIES.lookup tc3).getD tc3 else tc3
    let tc5 := if resole_foreign_territory then territory_attachment tc4 else tc4
    .ok tc5

/-- Definition `country_from_subdivision` from territory.py. -/
def country_from_subdivision (db : DB) (subdivision_code : String) : Option String :=
  let code := (SUBDIVISION_COUNTRIES.lookup subdivision_code).getD subdivision_code
  if code ∈ supported_country_codes db then
    some code
  else
    match db.getSubdivision code with
    | none => none
    | some subdiv => some subdiv.country_code

/-- The grouped reverse index built inside `default_subdivision_code` of
territory.py: subdivision/country overlaps restricted to two-letter targets,
then the country-alias-to-subdivision entries. -/
def default_subdiv (country_code : String) : List String :=
  (SUBDIVISION_COUNTRIES.filter
      (fun p => p.2 = country_code ∧ p.2.length = 2)).map (fun p => p.1) ++
  (COUNTRY_ALIAS_TO_SUBDIVISION.filter (fun p => p.1 = country_code)).map
      (fun p => p.2)

/-- Definition `default_subdivision_code` from territory.py: the unique candidate if
there is exactly one, `None` otherwise. -/
def default_subdivision_code (country_code : String) : Option String :=
  let default_subdivisions := default_subdiv country_code
  if default_subdivisions ≠ [] ∧ default_subdivisions.length = 1 then
    default_subdivisions.head?
  else
    none

/-- A value yielded by `territory_parents`: either a pycountry country
object or a subdivision object. -/
inductive Entity where
  | country (c : CountryRec)
  | subdivision (s : SubdivisionRec)
deriving DecidableEq, Repr

/-- The code of an entity, as extracted by `territory_parents_codes`. -/
def Entity.code : Entity → String
  | .country c => c.alpha_2
  | .subdivision s => s.code

/-- The `while subdivision_code:` loop of `territory_parents` in
territory.py: walk the `parent_code` chain upward, appending each visited
subdivision, and also return the code of the last visited subdivision.
The first argument is recursion fuel (`none` on exhaustion); a failing
database lookup (Python `KeyError`) is also modelled by `none`. -/
def walkChainF : Nat → DB → String → Option (List SubdivisionRec × String)
  | 0, _, _ => none
  | n + 1, db, code =>
    match db.getSubdivision code with
    | none => none
    | some subdiv =>
      if subdiv.parent_code = "" then
        some ([subdiv], code)
      else
        (walkChainF n db subdiv.parent_code).map
          (fun p => (subdiv :: p.1, p.2))

/-- Definition `territory_parents` from territory.py.  The normalized country branch
returns the country right away; otherwise the parent chain is walked and
the root country appended when requested. -/
def territory_parentsF (n : Nat) (db : DB) (territory_code : String)
    (include_country : Bool := true) : Option (List Entity) :=
  match (normalize_territory_code db territory_code).toOption with
  | none => none
  | some code =>
    if code ∈ supported_country_codes db then
      if include_country then
        (db.getCountry code).map (fun c => [.country c])
      else
        some []
    else
      match walkChainF n db code with
      | none => none
      | some (tree, top) =>
        if include_country then
          match db.getSubdivision top with
          | none => none
          | some topSub =>
            (db.getCountry topSub.country_code).map
              (fun c => tree.map .subdivision ++ [.country c])
        else
          some (tree.map .subdivision)

/-- Definition `territory_children_codes` from territory.py.  A country code collects
the matching subdivisions in one pass; otherwise the per-level recursive
search is engaged.  The first argument is recursion fuel. -/
def territory_children_codesF : Nat → DB → String → Bool → Option (Finset String)
  | 0, _, _, _ => none
  | n + 1, db, territory_code, include_self =>
    match (normalize_territory_code db territory_code).toOption with
    | none => none
    | some code =>
      let step : Option (Finset String) :=
        if code ∈ supported_country_codes db then
          some ((db.subdivisions.filter
            (fun subdiv => subdiv.country_code = code)).map
              (fun subdiv => subdiv.code)).toFinset
        else
          let direct_children_codes := (db.subdivisions.filter
            (fun subdiv => subdiv.parent_code = code)).map
              (fun subdiv => subdiv.code)
          optUnionFoldl
            (fun child_code => territory_children_codesF n db child_code true)
            (some ∅) direct_children_codes
      match step with
      | none => none
      | some codes => some (if include_self then insert code codes else codes)

/-- Definition `country_aliases` from territory.py: the recursive transitive closure of
country codes that could stand in for a territory.  The first argument is
recursion fuel; a failing subdivision lookup (Python `KeyError`) is also
modelled by `none`. -/
def country_aliasesF : Nat → DB → String → Option (Finset String)
  | 0, _, _ => none
  | n + 1, db, territory_code =>
    let base : Option (Finset String) :=
      if territory_code ∈ supported_country_codes db then
        some {territory_code}
      else
        match db.getSubdivision territory_code with
        | none => none
        | some subdiv =>
          let parent_code :=
            if subdiv.parent_code = "" then subdiv.country_code
            else subdiv.parent_code
          match country_aliasesF n db parent_code with
          | none => none
          | some parents =>
            match SUBDIVISION_COUNTRIES.lookup territory_code with
            | some v => some (insert v parents)
            | none => some parents
    match base with
    | none => none
    | some start =>
      optUnionFoldl (country_aliasesF n db) (some start)
        (REVERSE_MAPPING territory_code)

end Territory

namespace AddressPy

/-- Definition `Address.BASE_COMPONENT_IDS` from address.py. -/
def BASE_COMPONENT_IDS : List String :=
  ["line1", "line2", "postal_code", "city_name", "country_code",
   "subdivision_code"]

/-- Definition `Address.SUBDIVISION_METADATA_WHITELIST` from address.py. -/
def SUBDIVISION_METADATA_WHITELIST : List String := ["city_name"]

/-- Definition `Address.REQUIRED_FIELDS` from address.py (a frozenset; the iteration
order below is one admissible enumeration). -/
def REQUIRED_FIELDS : List String :=
  ["line1", "postal_code", "city_name", "country_code"]

/-- Definition `SUBDIVISION_COUNTRY_OVERLAPS` from address.py. -/
def SUBDIVISION_COUNTRY_OVERLAPS : List (String × String) := [
  ("CN-71", "TW"), ("CN-91", "HK"), ("CN-92", "MO"), ("FI-01", "AX"),
  ("FR-BL", "BL"), ("FR-GF", "GF"), ("FR-GP", "GP"), ("FR-MF", "MF"),
  ("FR-MQ", "MQ"), ("FR-NC", "NC"), ("FR-PF", "PF"), ("FR-PM", "PM"),
  ("FR-RE", "RE"), ("FR-TF", "TF"), ("FR-WF", "WF"), ("FR-YT", "YT"),
  ("NL-AW", "AW"), ("NL-BQ1", "BQ"), ("NL-BQ2", "BQ"), ("NL-BQ3", "BQ"),
  ("NL-CW", "CW"), ("NL-SX", "SX"), ("NO-21", "SJ"), ("NO-22", "SJ"),
  ("US-AS", "AS"), ("US-GU", "GU"), ("US-MP", "MP"), ("US-PR", "PR"),
  ("US-UM", "UM"), ("US-VI", "VI")]

/-- One `setdefault(v, []).append(k)` step of the reverse-index loop. -/
def addDefault (m : List (String × List String)) (k v : String) :
    List (String × List String) :=
  if m.any (fun p => p.1 = k) then
    m.map (fun p => if p.1 = k then (p.1, p.2 ++ [v]) else p)
  else
    m ++ [(k, [v])]

/-- Definition `DEFAULT_SUBDIVISIONS` from address.py: reverse index of the
subdivision/country overlap mapping. -/
def DEFAULT_SUBDIVISIONS : List (String × List String) :=
  SUBDIVISION_COUNTRY_OVERLAPS.foldl (fun m p => addDefault m p.2 p.1) []

/-- Definition `normalize_country_code` from address.py.  Python evaluates
`subdivisions.get(code=...)` eagerly as the default argument of
`dict.get`, so a missing subdivision raises `KeyError` (modelled by
`none`) even when the code is an overlap key. -/
def normalize_country_code (db : DB) (subdivision_code : String) :
    Option String :=
  match db.getSubdivision subdivision_code with
  | none => none
  | some subdiv =>
    some ((SUBDIVISION_COUNTRY_OVERLAPS.lookup subdivision_code).getD
      subdiv.country_code)

/-- Definition `default_subdivision_code` from address.py: the unique reverse-mapped
subdivision if there is exactly one, `None` otherwise. -/
def default_subdivision_code (country_code : String) : Option String :=
  match DEFAULT_SUBDIVISIONS.lookup country_code with
  | none => none
  | some default_subdivisions =>
    if default_subdivisions ≠ [] ∧ default_subdivisions.length = 1 then
      default_subdivisions.head?
    else
      none

/-- Collapse runs of dashes to a single dash. -/
def squeezeDashes : List Char → List Char
  | [] => []
  | c :: rest =>
    let r := squeezeDashes rest
    if c = '-' ∧ r.head? = some '-' then r else c :: r

/-- Modelled from the spec: string slugification for human-readable type
identifiers is an external collaborator (the `slugify` library, called with
`to_lower=True`).  Lower-case the string, replace non-alphanumeric
characters by dashes, collapse dash runs and strip dashes at both ends. -/
def slugify (s : String) : String :=
  let mapped := s.data.map (fun c => if c.isAlphanum then c.toLower else '-')
  let squeezed := squeezeDashes mapped
  ⟨((squeezed.dropWhile (fun c => c = '-')).reverse.dropWhile
      (fun c => c = '-')).reverse⟩

/-- Split a character list on a separator, like Python `str.split(sep)`. -/
def splitOnChar (sep : Char) : List Char → List (List Char)
  | [] => [[]]
  | c :: rest =>
    match splitOnChar sep rest with
    | [] => [[]]
    | t :: ts => if c = sep then [] :: t :: ts else (c :: t) :: ts

/-- Definition `subdivision_type_id` from address.py: the slugified type with dashes
replaced by underscores, collapsed to `city` whenever the token split
contains `city` or `municipality`. -/
def subdivision_type_id (subdivision : SubdivisionRec) : String :=
  let type_id : String :=
    ⟨(slugify subdivision.typ).data.map (fun c => if c = '-' then '_' else c)⟩
  let tokens := (splitOnChar '_' type_id.data).map (fun l => (⟨l⟩ : String))
  if "city" ∈ tokens ∨ "municipality" ∈ tokens then "city" else type_id

/-- A value of the address component map: a plain string or a subdivision
entity injected by the metadata merge. -/
inductive AVal where
  | str (v : String)
  | sub (v : SubdivisionRec)
deriving DecidableEq, Repr

/-- Python truthiness of a component value. -/
def AVal.truthy : AVal → Bool
  | .str v => v ≠ ""
  | .sub _ => true

/-- Definition `subdivision_metadata` from address.py: the four entries keyed by the
subdivision's type identifier. -/
def subdivision_metadata (subdivision : SubdivisionRec) :
    List (String × AVal) :=
  let subdiv_type_id := subdivision_type_id subdivision
  [(subdiv_type_id, .sub subdivision),
   (subdiv_type_id ++ "_code", .str subdivision.code),
   (subdiv_type_id ++ "_name", .str subdivision.name),
   (subdiv_type_id ++ "_type_name", .str subdivision.typ)]

/-- The collision-check assertion at the end of `subdivision_metadata` in
address.py, exactly as written there: NOT ((metadata ids minus the
whitelist) is a subset of the base component ids). -/
def subdivision_metadata_assert (subdivision : SubdivisionRec) : Bool :=
  !((((subdivision_metadata subdivision).map (fun p => p.1)).filter
      (fun i => !(SUBDIVISION_METADATA_WHITELIST.contains i))).all
        (fun i => BASE_COMPONENT_IDS.contains i))

/-- The base components of an `Address`.  Unset components are `none`; the
derived metadata entries produced by `normalize()` are carried separately. -/
structure Addr where
  line1 : Option String := none
  line2 : Option String := none
  postal_code : Option String := none
  city_name : Option String := none
  country_code : Option String := none
  subdivision_code : Option String := none
deriving DecidableEq, Repr

/-- Python truthiness of an optional string component. -/
def truthyO : Option String → Bool
  | none => false
  | some s => s ≠ ""

/-- Definition `self._components.get(component_id)` before the metadata merge: only
the six base components can be present. -/
def Addr.get (a : Addr) (component_id : String) : Option String :=
  if component_id = "line1" then a.line1
  else if component_id = "line2" then a.line2
  else if component_id = "postal_code" then a.postal_code
  else if component_id = "city_name" then a.city_name
  else if component_id = "country_code" then a.country_code
  else if component_id = "subdivision_code" then a.subdivision_code
  else none

/-- Set a base component of the address. -/
def Addr.set (a : Addr) (component_id : String) (v : String) : Addr :=
  if component_id = "line1" then { a with line1 := some v }
  else if component_id = "line2" then { a with line2 := some v }
  else if component_id = "postal_code" then { a with postal_code := some v }
  else if component_id = "city_name" then { a with city_name := some v }
  else if component_id = "country_code" then { a with country_code := some v }
  else if component_id = "subdivision_code" then
    { a with subdivision_code := some v }
  else a

/-- Step 1 of `normalize()`: strip a string component and treat the empty
result as absent. -/
def cleanComponent (v : Option String) : Option String :=
  match v with
  | none => none
  | some s => let t := pyStrip s; if t = "" then none else some t

/-- Step 1 of `normalize()` applied to every component. -/
def cleanupStep (a : Addr) : Addr :=
  { line1 := cleanComponent a.line1,
    line2 := cleanComponent a.line2,
    postal_code := cleanComponent a.postal_code,
    city_name := cleanComponent a.city_name,
    country_code := cleanComponent a.country_code,
    subdivision_code := cleanComponent a.subdivision_code }

/-- Step 2 of `normalize()`: upper-case the ISO codes when present. -/
def upperCodesStep (a : Addr) : Addr :=
  { a with country_code := a.country_code.map pyUpper,
           subdivision_code := a.subdivision_code.map pyUpper }

/-- Step 3 of `normalize()`: swap the lines if the first is empty. -/
def swapLinesStep (a : Addr) : Addr :=
  if truthyO a.line2 ∧ ¬ truthyO a.line1 then
    { a with line1 := a.line2, line2 := a.line1 }
  else a

/-- Step 4 of `normalize()`: guess the default subdivision from the
country when no subdivision is set. -/
def defaultSubdivStep (a : Addr) : Addr :=
  if truthyO a.country_code ∧ ¬ truthyO a.subdivision_code then
    { a with subdivision_code :=
        default_subdivision_code (a.country_code.getD "") }
  else a

/-- Steps 1-4 of `normalize()` composed. -/
def prepSteps (a : Addr) : Addr :=
  defaultSubdivStep (swapLinesStep (upperCodesStep (cleanupStep a)))

/-- Errors `normalize()` can raise: a `KeyError` from a database lookup, an
`AssertionError` from a falsy or colliding metadata value, or the
`ValueError` naming the subdivision, the component and both values when a
conflicting component would be overwritten. -/
inductive PyErr where
  | keyError
  | assertionError
  | conflict (subdivision_code component_id : String) (current new_value : AVal)
deriving DecidableEq, Repr

/-- The `territory_tree` generator of address.py as consumed with
`include_country=False` by `normalize()`: the subdivision itself followed
by its ancestors along `parent_code`.  The first argument is recursion
fuel; a failing lookup (Python `KeyError`) is also modelled by `none`. -/
def territory_treeF : Nat → DB → String → Option (List SubdivisionRec)
  | 0, _, _ => none
  | n + 1, db, subdivision_code =>
    match db.getSubdivision subdivision_code with
    | none => none
    | some subdiv =>
      if subdiv.parent_code = "" then some [subdiv]
      else (territory_treeF n db subdiv.parent_code).map
        (fun t => subdiv :: t)

/-- Definition `dict.update` for a single key: overwrite in place or append. -/
def updateAssoc (l : List (String × AVal)) (k : String) (v : AVal) :
    List (String × AVal) :=
  if l.any (fun p => p.1 = k) then
    l.map (fun p => if p.1 = k then (p.1, v) else p)
  else l ++ [(k, v)]

/-- Definition `parent_metadata.update(...)` over a whole metadata dict. -/
def updateAll (l m : List (String × AVal)) : List (String × AVal) :=
  m.foldl (fun acc p => updateAssoc acc p.1 p.2) l

/-- The `parent_metadata` accumulation of `normalize()`: the derived
country code first, then the metadata of every subdivision yielded by
`territory_tree(subdivision_code, include_country=False)`, merged with
dict-update semantics.  `none` is exhausted fuel; `keyError` a failing
lookup; `assertionError` a failing metadata collision assertion. -/
def buildParentMetadataF (n : Nat) (db : DB) (s : String) :
    Option (Except PyErr (List (String × AVal))) :=
  match normalize_country_code db s with
  | none => some (.error .keyError)
  | some ncc =>
    match territory_treeF n db s with
    | none => none
    | some tree =>
      some (tree.foldl
        (fun acc subdiv =>
          match acc with
          | .error e => .error e
          | .ok l =>
            if subdivision_metadata_assert subdiv then
              .ok (updateAll l (subdivision_metadata subdiv))
            else .error .assertionError)
        (.ok [("country_code", .str ncc)]))

/-- The conflict loop of `normalize()`: iterate the parent metadata in
order; an entry whose id collides with a truthy base component is allowed
through only when the current value equals the new value or, for
`country_code`, the subdivision's own database country code. -/
def checkConflicts (db : DB) (a : Addr) (s : String) :
    List (String × AVal) → Except PyErr Unit
  | [] => .ok ()
  | (component_id, new_value) :: rest =>
    if ¬ new_value.truthy then .error .assertionError
    else
      let current := a.get component_id
      if truthyO current ∧ component_id ∈ BASE_COMPONENT_IDS then
        match (if component_id = "country_code" then
                (db.getSubdivision s).map
                  (fun r => [new_value, AVal.str r.country_code])
              else some [new_value]) with
        | none => .error .keyError
        | some alias_values =>
          if AVal.str (current.getD "") ∈ alias_values then
            checkConflicts db a s rest
          else
            .error (.conflict s component_id (.str (current.getD ""))
              new_value)
      else checkConflicts db a s rest

/-- Definition `self._components.update(parent_metadata)`: the base components pick up
their new string values; the remaining metadata entries are returned
alongside the address. -/
def mergeMetadata (a : Addr) (pm : List (String × AVal)) : Addr :=
  pm.foldl
    (fun acc p =>
      match p.2 with
      | .str v => acc.set p.1 v
      | .sub _ => acc)
    a

/-- Definition `normalize()` from address.py: steps 1-4, then the parent-metadata
computation, conflict check and merge when a subdivision code is set. -/
def normalizeF (n : Nat) (db : DB) (a0 : Addr) :
    Option (Except PyErr (Addr × List (String × AVal))) :=
  let a := prepSteps a0
  if truthyO a.subdivision_code then
    let s := a.subdivision_code.getD ""
    match buildParentMetadataF n db s with
    | none => none
    | some (.error e) => some (.error e)
    | some (.ok pm) =>
      match checkConflicts db a s pm with
      | .error e => some (.error e)
      | .ok _ => some (.ok (mergeMetadata a pm, pm))
  else
    some (.ok (a, []))

/-- Errors `validate()` can raise. -/
inductive VErr where
  | invalidSubdivisionCode (code : String)
  | invalidCountryCode (code : String)
  | countrySubdivisionMismatch (country_code subdivision_code : String)
  | missingRequiredField (field : String)
deriving DecidableEq, Repr

/-- Definition `validate()` from address.py: the four checks in source order. -/
def validate (db : DB) (a : Addr) : Except VErr Unit :=
  if truthyO a.subdivision_code ∧
      (db.getSubdivision (a.subdivision_code.getD "")).isNone then
    .error (.invalidSubdivisionCode (a.subdivision_code.getD ""))
  else if truthyO a.country_code ∧
      (db.getCountry (a.country_code.getD "")).isNone then
    .error (.invalidCountryCode (a.country_code.getD ""))
  else if truthyO a.country_code ∧ truthyO a.subdivision_code ∧
      normalize_country_code db (a.subdivision_code.getD "") ≠
        a.country_code then
    .error (.countrySubdivisionMismatch (a.country_code.getD "")
      (a.subdivision_code.getD ""))
  else
    match REQUIRED_FIELDS.find? (fun f => !(truthyO (a.get f))) with
    | some f => .error (.missingRequiredField f)
    | none => .ok ()

end AddressPy

/-- A concrete fragment of the external pycountry database, faithful to the
real dataset: every record below matches the corresponding ISO 3166
entry. -/
def sampleDB : DB where
  countries := [
    ⟨"AU", "Australia"⟩, ⟨"BR", "Brazil"⟩, ⟨"CN", "China"⟩,
    ⟨"DK", "Denmark"⟩, ⟨"FI", "Finland"⟩, ⟨"FR", "France"⟩,
    ⟨"GB", "United Kingdom"⟩, ⟨"GR", "Greece"⟩, ⟨"ES", "Spain"⟩,
    ⟨"NL", "Netherlands"⟩, ⟨"NO", "Norway"⟩, ⟨"US", "United States"⟩,
    ⟨"IO", "British Indian Ocean Territory"⟩, ⟨"SH", "Saint Helena"⟩,
    ⟨"BQ", "Bonaire, Sint Eustatius and Saba"⟩, ⟨"TW", "Taiwan"⟩,
    ⟨"HK", "Hong Kong"⟩, ⟨"MO", "Macao"⟩, ⟨"AX", "Aland Islands"⟩,
    ⟨"BL", "Saint Barthelemy"⟩, ⟨"GF", "French Guiana"⟩,
    ⟨"GP", "Guadeloupe"⟩, ⟨"MF", "Saint Martin"⟩, ⟨"MQ", "Martinique"⟩,
    ⟨"NC", "New Caledonia"⟩, ⟨"PF", "French Polynesia"⟩,
    ⟨"PM", "Saint Pierre and Miquelon"⟩, ⟨"RE", "Reunion"⟩,
    ⟨"TF", "French Southern Territories"⟩, ⟨"WF", "Wallis and Futuna"⟩,
    ⟨"YT", "Mayotte"⟩, ⟨"AW", "Aruba"⟩, ⟨"CW", "Curacao"⟩,
    ⟨"SX", "Sint Maarten"⟩, ⟨"SJ", "Svalbard and Jan Mayen"⟩,
    ⟨"AS", "American Samoa"⟩, ⟨"GU", "Guam"⟩,
    ⟨"MP", "Northern Mariana Islands"⟩, ⟨"PR", "Puerto Rico"⟩,
    ⟨"UM", "United States Minor Outlying Islands"⟩,
    ⟨"VI", "Virgin Islands, U.S."⟩, ⟨"CC", "Cocos (Keeling) Islands"⟩,
    ⟨"HM", "Heard Island and McDonald Islands"⟩, ⟨"JE", "Jersey"⟩,
    ⟨"FO", "Faroe Islands"⟩, ⟨"AQ", "Antarctica"⟩, ⟨"GY", "Guyana"⟩,
    ⟨"GI", "Gibraltar"⟩, ⟨"IM", "Isle of Man"⟩, ⟨"PN", "Pitcairn"⟩,
    ⟨"VG", "Virgin Islands, British"⟩, ⟨"BV", "Bouvet Island"⟩]
  subdivisions := [
    ⟨"CN-71", "Taiwan", "Province", "", "CN"⟩,
    ⟨"CN-91", "Hong Kong", "Special administrative region", "", "CN"⟩,
    ⟨"CN-92", "Macao", "Special administrative region", "", "CN"⟩,
    ⟨"FI-01", "Ahvenanmaan maakunta", "Region", "", "FI"⟩,
    ⟨"FR-BL", "Saint-Barthelemy", "Overseas territorial collectivity", "", "FR"⟩,
    ⟨"FR-GF", "Guyane", "Overseas region", "", "FR"⟩,
    ⟨"FR-GP", "Guadeloupe", "Overseas region", "", "FR"⟩,
    ⟨"FR-MF", "Saint-Martin", "Overseas territorial collectivity", "", "FR"⟩,
    ⟨"FR-MQ", "Martinique", "Overseas region", "", "FR"⟩,
    ⟨"FR-NC", "Nouvelle-Caledonie", "Overseas territorial collectivity", "", "FR"⟩,
    ⟨"FR-PF", "Polynesie francaise", "Overseas territorial collectivity", "", "FR"⟩,
    ⟨"FR-PM", "Saint-Pierre-et-Miquelon", "Overseas territorial collectivity", "", "FR"⟩,
    ⟨"FR-RE", "La Reunion", "Overseas region", "", "FR"⟩,
    ⟨"FR-TF", "Terres australes francaises", "Overseas territorial collectivity", "", "FR"⟩,
    ⟨"FR-WF", "Wallis-et-Futuna", "Overseas territorial collectivity", "", "FR"⟩,
    ⟨"FR-YT", "Mayotte", "Overseas region", "", "FR"⟩,
    ⟨"FR-CP", "Clipperton", "Dependency", "", "FR"⟩,
    ⟨"FR-ARA", "Auvergne-Rhone-Alpes", "Metropolitan region", "", "FR"⟩,
    ⟨"FR-01", "Ain", "Metropolitan department", "FR-ARA", "FR"⟩,
    ⟨"NL-AW", "Aruba", "Country", "", "NL"⟩,
    ⟨"NL-CW", "Curacao", "Country", "", "NL"⟩,
    ⟨"NL-SX", "Sint Maarten", "Country", "", "NL"⟩,
    ⟨"NL-BQ1", "Bonaire", "Special municipality", "", "NL"⟩,
    ⟨"NL-BQ2", "Saba", "Special municipality", "", "NL"⟩,
    ⟨"NL-BQ3", "Sint Eustatius", "Special municipality", "", "NL"⟩,
    ⟨"NO-21", "Svalbard", "Arctic region", "", "NO"⟩,
    ⟨"NO-22", "Jan Mayen", "Arctic region", "", "NO"⟩,
    ⟨"US-AS", "American Samoa", "Outlying area", "", "US"⟩,
    ⟨"US-GU", "Guam", "Outlying area", "", "US"⟩,
    ⟨"US-MP", "Northern Mariana Islands", "Outlying area", "", "US"⟩,
    ⟨"US-PR", "Puerto Rico", "Outlying area", "", "US"⟩,
    ⟨"US-UM", "United States Minor Outlying Islands", "Outlying area", "", "US"⟩,
    ⟨"US-VI", "Virgin Islands, U.S.", "Outlying area", "", "US"⟩,
    ⟨"US-CA", "California", "State", "", "US"⟩,
    ⟨"BQ-BO", "Bonaire", "Special municipality", "", "BQ"⟩,
    ⟨"BQ-SA", "Saba", "Special municipality", "", "BQ"⟩,
    ⟨"BQ-SE", "Sint Eustatius", "Special municipality", "", "BQ"⟩,
    ⟨"GB-SCT", "Scotland", "Country", "", "GB"⟩,
    ⟨"SH-AC", "Ascension", "Geographical entity", "", "SH"⟩,
    ⟨"SH-TA", "Tristan da Cunha", "Geographical entity", "", "SH"⟩,
    ⟨"ES-CN", "Canarias", "Autonomous community", "", "ES"⟩]



/-- An address with subdivision US-CA and a conflicting explicit country
code FR (the example of the spec's testable properties). -/
def usCaFr : AddressPy.Addr :=
  { line1 := some "10 Downing St", postal_code := some "95014",
    city_name := some "Cupertino", country_code := some "FR",
    subdivision_code := some "US-CA" }

/-- An address with subdivision BQ-BO and the alias-equivalent country
code NL. -/
def bqBoNl : AddressPy.Addr :=
  { line1 := some "Kaya Grandi 1", postal_code := some "0000",
    city_name := some "Kralendijk", country_code := some "NL",
    subdivision_code := some "BQ-BO" }

/-- An address missing its postal code. -/
def missingPostal : AddressPy.Addr :=
  { line1 := some "x", city_name := some "y", country_code := some "US" }

/-! ## Auxiliary definitions used by the verification theorems -/

/-- The candidate set described by the specification for
`default_subdivision_code`: the reverse of the subdivision/country overlap
table restricted to country-shaped (two-letter) targets, together with the
country-alias-to-subdivision entries, grouped by target country. -/
def candidateSubdivisions (country_code : String) : List String :=
  (Territory.SUBDIVISION_COUNTRIES.filter
      (fun p => p.2 = country_code ∧ p.2.length = 2)).map (fun p => p.1) ++
  (Territory.COUNTRY_ALIAS_TO_SUBDIVISION.filter
      (fun p => p.1 = country_code)).map (fun p => p.2)

/-- Every country code that occurs as a target in either implementation's
source tables. -/
def relevantCodes : List String :=
  Territory.SUBDIVISION_COUNTRIES.map (fun p => p.2) ++
  AddressPy.SUBDIVISION_COUNTRY_OVERLAPS.map (fun p => p.2) ++
  Territory.COUNTRY_ALIAS_TO_SUBDIVISION.map (fun p => p.1)

/-- The Scotland subdivision of the real database: its type `Country` is
listed in the subdivision-type inventory of address.py's own docstring. -/
def gbSct : SubdivisionRec := ⟨"GB-SCT", "Scotland", "Country", "", "GB"⟩

/-- The keys of every alias table of territory.py. -/
def allAliasTableKeys : List String :=
  Territory.COUNTRY_ALIASES.map (fun p => p.1) ++
  Territory.FOREIGN_TERRITORIES_ALIAS_TO_COUNTRY.map (fun p => p.1) ++
  Territory.SUBDIVISION_COUNTRIES.map (fun p => p.1) ++
  Territory.SUBDIVISION_ALIASES.map (fun p => p.1) ++
  Territory.FOREIGN_TERRITORIES_MAPPING.map (fun p => p.1) ++
  Territory.COUNTRY_ALIAS_TO_SUBDIVISION.map (fun p => p.1)

/-- The spec condition for `InvalidSubdivisionCode`: a subdivision code is
set but absent from the external database. -/
def subdivisionUnknown (db : DB) (a : AddressPy.Addr) : Prop :=
  AddressPy.truthyO a.subdivision_code = true ∧
  db.getSubdivision (a.subdivision_code.getD "") = none

/-- The spec condition for `InvalidCountryCode`: a country code is set but
absent from the external database. -/
def countryUnknown (db : DB) (a : AddressPy.Addr) : Prop :=
  AddressPy.truthyO a.country_code = true ∧
  db.getCountry (a.country_code.getD "") = none

/-- The spec condition for `CountrySubdivisionMismatch`: both codes are set
and the subdivision's resolved parent country differs from the country. -/
def countrySubdivMismatch (db : DB) (a : AddressPy.Addr) : Prop :=
  AddressPy.truthyO a.country_code = true ∧
  AddressPy.truthyO a.subdivision_code = true ∧
  AddressPy.normalize_country_code db (a.subdivision_code.getD "") ≠
    a.country_code

/-- The spec condition for `MissingRequiredField`: some required component
is absent. -/
def requiredMissing (a : AddressPy.Addr) : Prop :=
  ∃ f ∈ AddressPy.REQUIRED_FIELDS, AddressPy.truthyO (a.get f) = false

/-- The resolution chain inside `normalize_territory_code` (with the
foreign-territory attachment step disabled), applied to an already
trimmed and upper-cased code. -/
def resolveChain (resolve_aliases : Bool) (t0 : String) : String :=
  let t1 := (Territory.FOREIGN_TERRITORIES_ALIAS_TO_COUNTRY.lookup t0).getD t0
  let t2 := (Territory.COUNTRY_ALIASES.lookup t1).getD t1
  let t3 := if resolve_aliases then
    (Territory.SUBDIVISION_ALIASES.lookup t2).getD t2 else t2
  if resolve_aliases then
    (Territory.SUBDIVISION_COUNTRIES.lookup t3).getD t3 else t3

/-- An explicit rank function for the parent chains of the concrete
database. -/
def sampleRho (c : String) : Nat :=
  if c = "FR-01" then 2 else 1

/-- The parent-chain relation of the database: `AncChain db x y` holds when
`y` lies on the `parent_code` chain starting at `x` (inclusive). -/
inductive AncChain (db : DB) : String → String → Prop
  | refl (c : String) : AncChain db c c
  | step (x : String) (sub : SubdivisionRec) (y : String) :
      db.getSubdivision x = some sub → sub.parent_code ≠ "" →
      AncChain db sub.parent_code y → AncChain db x y

/-- The set of keys under which the reverse index holds entries. -/
def REVERSE_KEYS : List String :=
  Territory.SUBDIVISION_COUNTRIES.map (fun p => p.2) ++
  (Territory.FOREIGN_TERRITORIES_ALIAS_TO_COUNTRY ++
    Territory.COUNTRY_ALIASES ++ Territory.SUBDIVISION_ALIASES ++
    Territory.FOREIGN_TERRITORIES_MAPPING).map (fun p => p.1)

/-- An explicit descent measure for the alias graph of the static tables
over the concrete database: plain countries sit at level 0, their
overlap subdivisions and simple alias keys above them, the overlap
countries above those, and the `NL-BQ` subdivision aliases on top. -/
def muTable : List (String × Nat) := [
  ("AU", 0), ("BR", 0), ("CN", 0), ("DK", 0), ("FI", 0), ("FR", 0),
  ("GB", 0), ("GR", 0), ("ES", 0), ("NL", 0), ("NO", 0), ("US", 0),
  ("SH", 1), ("BQ", 1), ("IO", 1), ("FX", 1), ("EA", 1), ("UK", 1),
  ("EL", 1), ("CC", 1), ("HM", 1), ("JE", 1), ("FO", 1), ("AQ", 1),
  ("GY", 1), ("GI", 1), ("IM", 1), ("PN", 1), ("VG", 1), ("BV", 1),
  ("CN-71", 1), ("CN-91", 1), ("CN-92", 1), ("FI-01", 1), ("FR-BL", 1),
  ("FR-GF", 1), ("FR-GP", 1), ("FR-MF", 1), ("FR-MQ", 1), ("FR-NC", 1),
  ("FR-PF", 1), ("FR-PM", 1), ("FR-RE", 1), ("FR-TF", 1), ("FR-WF", 1),
  ("FR-YT", 1), ("FR-CP", 1), ("FR-ARA", 1), ("NL-AW", 1), ("NL-CW", 1),
  ("NL-SX", 1), ("NO-21", 1), ("NO-22", 1), ("US-AS", 1), ("US-GU", 1),
  ("US-MP", 1), ("US-PR", 1), ("US-UM", 1), ("US-VI", 1), ("US-CA", 1),
  ("GB-SCT", 1), ("ES-CN", 1),
  ("TW", 2), ("HK", 2), ("MO", 2), ("AX", 2), ("BL", 2), ("GF", 2),
  ("GP", 2), ("MF", 2), ("MQ", 2), ("NC", 2), ("PF", 2), ("PM", 2),
  ("RE", 2), ("TF", 2), ("WF", 2), ("YT", 2), ("AW", 2), ("CW", 2),
  ("SX", 2), ("SJ", 2), ("AS", 2), ("GU", 2), ("MP", 2), ("PR", 2),
  ("UM", 2), ("VI", 2), ("DG", 2), ("SH-AC", 2), ("SH-TA", 2),
  ("BQ-BO", 2), ("BQ-SA", 2), ("BQ-SE", 2), ("FR-01", 2),
  ("NL-BQ1", 3), ("NL-BQ2", 3), ("NL-BQ3", 3)]

/-- The measure function induced by `muTable` (unknown codes sit high). -/
def sampleMu (c : String) : Nat :=
  (muTable.lookup c).getD 6

/-- The amended overwrite-violation condition for one parent-metadata
entry: the entry collides with a truthy base component whose current value
is neither the new value nor — for `country_code` — the subdivision's own
database country code. -/
def conflictViolation (a : AddressPy.Addr) (sub : SubdivisionRec)
    (cid : String) (nv : AddressPy.AVal) : Prop :=
  AddressPy.truthyO (a.get cid) = true ∧
  cid ∈ AddressPy.BASE_COMPONENT_IDS ∧
  AddressPy.AVal.str ((a.get cid).getD "") ≠ nv ∧
  ¬ (cid = "country_code" ∧
    AddressPy.AVal.str ((a.get cid).getD "") = .str sub.country_code)

/-- The parent metadata computed for `US-CA` over the concrete database. -/
def usCaMetadata : List (String × AddressPy.AVal) :=
  [("country_code", .str "US"),
   ("state", .sub ⟨"US-CA", "California", "State", "", "US"⟩),
   ("state_code", .str "US-CA"),
   ("state_name", .str "California"),
   ("state_type_name", .str "State")]

/-! ## Generic helper lemmas -/

theorem optUnionFoldl_none (f : String → Option (Finset String))
    (l : List String) : optUnionFoldl f none l = none := by
  induction l with
  | nil => rfl
  | cons x xs ih => simpa [optUnionFoldl, List.foldl_cons] using ih

theorem optUnionFoldl_init_isSome (f : String → Option (Finset String))
    (l : List String) (init : Option (Finset String)) (r : Finset String)
    (h : optUnionFoldl f init l = some r) : init.isSome := by
  cases init with
  | some a => rfl
  | none => rw [optUnionFoldl_none] at h; exact absurd h (by simp)

theorem optUnionFoldl_cons (f : String → Option (Finset String))
    (x : String) (xs : List String) (init : Option (Finset String)) :
    optUnionFoldl f init (x :: xs) =
      optUnionFoldl f
        (match init, f x with
         | some a, some s => some (a ∪ s)
         | _, _ => none) xs := rfl

theorem optUnionFoldl_isSome (f : String → Option (Finset String))
    (l : List String) :
    ∀ init : Option (Finset String), init.isSome →
      (∀ x ∈ l, (f x).isSome) → (optUnionFoldl f init l).isSome := by
  induction l with
  | nil => intro init hi _; exact hi
  | cons x xs ih =>
    intro init hi hall
    obtain ⟨a, rfl⟩ := Option.isSome_iff_exists.mp hi
    obtain ⟨s, hs⟩ := Option.isSome_iff_exists.mp (hall x (by simp))
    rw [optUnionFoldl_cons, hs]
    exact ih (some (a ∪ s)) rfl (fun y hy => hall y (by simp [hy]))

theorem optUnionFoldl_mono (f g : String → Option (Finset String))
    (l : List String)
    (hfg : ∀ x ∈ l, ∀ s, f x = some s → g x = some s) :
    ∀ init r, optUnionFoldl f init l = some r →
      optUnionFoldl g init l = some r := by
  induction l with
  | nil => intro init r h; exact h
  | cons x xs ih =>
    intro init r h
    have hi := optUnionFoldl_init_isSome f (x :: xs) init r h
    obtain ⟨a, rfl⟩ := Option.isSome_iff_exists.mp hi
    rw [optUnionFoldl_cons] at h
    cases hfx : f x with
    | none => rw [hfx] at h; rw [optUnionFoldl_none] at h; exact absurd h (by simp)
    | some s =>
      rw [hfx] at h
      rw [optUnionFoldl_cons, hfg x (by simp) s hfx]
      exact ih (fun y hy => hfg y (by simp [hy])) (some (a ∪ s)) r h

theorem optUnionFoldl_mem (f : String → Option (Finset String))
    (l : List String) :
    ∀ init r, optUnionFoldl f init l = some r →
      ∀ x ∈ r, (∃ a, init = some a ∧ x ∈ a) ∨
        ∃ c ∈ l, ∃ s, f c = some s ∧ x ∈ s := by
  induction l with
  | nil => intro init r h x hx; exact .inl ⟨r, h, hx⟩
  | cons c cs ih =>
    intro init r h x hx
    have hi := optUnionFoldl_init_isSome f (c :: cs) init r h
    obtain ⟨a, rfl⟩ := Option.isSome_iff_exists.mp hi
    rw [optUnionFoldl_cons] at h
    cases hfc : f c with
    | none => rw [hfc] at h; rw [optUnionFoldl_none] at h; exact absurd h (by simp)
    | some s =>
      rw [hfc] at h
      rcases ih (some (a ∪ s)) r h x hx with ⟨b, hb, hxb⟩ | ⟨d, hd, t, ht, hxt⟩
      · obtain rfl : a ∪ s = b := by simpa using hb
        rcases Finset.mem_union.mp hxb with hxa | hxs
        · exact .inl ⟨a, rfl, hxa⟩
        · exact .inr ⟨c, by simp, s, hfc, hxs⟩
      · exact .inr ⟨d, by simp [hd], t, ht, hxt⟩

theorem lookup_mem {β : Type} (l : List (String × β)) (k : String) (v : β)
    (h : l.lookup k = some v) : (k, v) ∈ l := by
  obtain ⟨l1, l2, rfl, -⟩ := List.lookup_eq_some_iff.mp h
  simp

theorem find?_eq_of_mem_nodup (l : List SubdivisionRec)
    (sub : SubdivisionRec) (x : String) (hmem : sub ∈ l) (hx : sub.code = x)
    (hnd : (l.map (fun r => r.code)).Nodup) :
    l.find? (fun r => r.code = x) = some sub := by
  induction l with
  | nil => cases hmem
  | cons h t ih =>
    rcases List.mem_cons.mp hmem with rfl | hmemt
    · simp [List.find?_cons, hx]
    · have hns : h.code ≠ x := by
        intro hcontra
        have : sub.code ∈ t.map (fun r => r.code) :=
          List.mem_map.mpr ⟨sub, hmemt, rfl⟩
        rw [hx, ← hcontra] at this
        exact (List.nodup_cons.mp hnd).1 this
      rw [List.find?_cons_of_neg _ (by simpa using hns)]
      exact ih hmemt (List.nodup_cons.mp hnd).2

/-! ## C9: `default_subdivision_code` of territory.py -/

/-- C9: for every country code, `default_subdivision_code` of territory.py
returns the unique subdivision of the spec's candidate set exactly when that
set is a singleton, and returns no answer (never an error) when there are
zero or several candidates. -/
theorem C9_default_subdivision_code_contract (country_code : String) :
    (∀ s, Territory.default_subdivision_code country_code = some s ↔
      candidateSubdivisions country_code = [s]) ∧
    (Territory.default_subdivision_code country_code = none ↔
      (candidateSubdivisions country_code).length ≠ 1) := by
  have hcand : candidateSubdivisions country_code =
      Territory.default_subdiv country_code := rfl
  have hshape : ∀ (l : List String) (s : String),
      (if l ≠ [] ∧ l.length = 1 then l.head? else none) = some s ↔ l = [s] := by
    intro l s
    rcases l with _ | ⟨a, _ | ⟨b, t⟩⟩ <;> simp
  have hshape0 : ∀ l : List String,
      (if l ≠ [] ∧ l.length = 1 then l.head? else none) = none ↔
        l.length ≠ 1 := by
    intro l
    rcases l with _ | ⟨a, _ | ⟨b, t⟩⟩ <;> simp
  constructor
  · intro s
    rw [hcand]
    simpa only [Territory.default_subdivision_code] using
      hshape (Territory.default_subdiv country_code) s
  · rw [hcand]
    simpa only [Territory.default_subdivision_code] using
      hshape0 (Territory.default_subdiv country_code)

/-! ## C10: the two `default_subdivision_code` implementations -/

/-- C10 counterexample: on the country alias `AC` (Ascension Island) the
address.py implementation, which ignores `COUNTRY_ALIAS_TO_SUBDIVISION`,
returns no answer while the territory.py implementation returns `SH-AC`. -/
theorem C10_default_subdivision_counterexample :
    AddressPy.default_subdivision_code "AC" = none ∧
    Territory.default_subdivision_code "AC" = some "SH-AC" :=
  ⟨rfl, rfl⟩

/-- C10 amended: the address.py and territory.py implementations of
`default_subdivision_code` agree on every country code that is not a key of
`COUNTRY_ALIAS_TO_SUBDIVISION` (`AC`, `CP`, `IC`, `TA`). -/
theorem C10_default_subdivision_amended (k : String)
    (hk : k ∉ Territory.COUNTRY_ALIAS_TO_SUBDIVISION.map (fun p => p.1)) :
    AddressPy.default_subdivision_code k =
      Territory.default_subdivision_code k := by
  by_cases hmem : k ∈ relevantCodes
  · have hall : ∀ x ∈ relevantCodes,
        x ∈ Territory.COUNTRY_ALIAS_TO_SUBDIVISION.map (fun p => p.1) ∨
        AddressPy.default_subdivision_code x =
          Territory.default_subdivision_code x := by decide
    rcases hall k hmem with h1 | h2
    · exact absurd h1 hk
    · exact h2
  · have haddr : AddressPy.default_subdivision_code k = none := by
      have hkeys : ∀ p ∈ AddressPy.DEFAULT_SUBDIVISIONS,
          p.1 ∈ relevantCodes := by decide
      have : AddressPy.DEFAULT_SUBDIVISIONS.lookup k = none :=
        List.lookup_eq_none_iff.mpr (fun p hp => by
          simp only [bne_iff_ne, ne_eq]
          intro hcontra
          exact hmem (hcontra ▸ hkeys p hp))
      simp [AddressPy.default_subdivision_code, this]
    have hterr : Territory.default_subdivision_code k = none := by
      have h1 : Territory.default_subdiv k = [] := by
        have hv : ∀ p ∈ Territory.SUBDIVISION_COUNTRIES,
            p.2 ∈ relevantCodes := by decide
        have hv2 : ∀ p ∈ Territory.COUNTRY_ALIAS_TO_SUBDIVISION,
            p.1 ∈ relevantCodes := by decide
        unfold Territory.default_subdiv
        rw [List.filter_eq_nil_iff.mpr, List.filter_eq_nil_iff.mpr]
        · simp
        · intro p hp
          simp only [decide_eq_true_eq]
          intro hcontra
          exact hmem (hcontra ▸ hv2 p hp)
        · intro p hp
          simp only [decide_eq_true_eq, not_and]
          intro hcontra _
          exact hmem (hcontra ▸ hv p hp)
      simp [Territory.default_subdivision_code, h1]
    rw [haddr, hterr]

/-! ## C5: the metadata collision assertion of address.py -/

/-- C5: the collision invariant fails on the code.  For a subdivision of
type `Country` the derived metadata identifier `country_code` collides with
the base component `country_code` and is not whitelisted, yet the assertion
of `subdivision_metadata`, as written (a negated subset test instead of a
disjointness test), still passes. -/
theorem C5_metadata_collision_assert_bug :
    AddressPy.subdivision_metadata_assert gbSct = true ∧
    "country_code" ∈ (AddressPy.subdivision_metadata gbSct).map
      (fun p => p.1) ∧
    "country_code" ∈ AddressPy.BASE_COMPONENT_IDS ∧
    "country_code" ∉ AddressPy.SUBDIVISION_METADATA_WHITELIST := by
  refine ⟨rfl, ?_, ?_, ?_⟩ <;> decide

/-! ## C1: the `normalize_territory_code` contract -/

theorem mem_stc_append_alias_keys (db : DB)
    (hSA : ∀ p ∈ Territory.SUBDIVISION_ALIASES,
      p.1 ∈ Territory.supported_subdivision_codes db)
    (hSC : ∀ p ∈ Territory.SUBDIVISION_COUNTRIES,
      p.1 ∈ Territory.supported_subdivision_codes db)
    (hFTM : ∀ p ∈ Territory.FOREIGN_TERRITORIES_MAPPING,
      p.1 ∈ db.countries.map (fun r => r.alpha_2)) (x : String) :
    x ∈ Territory.supported_territory_codes db ++ allAliasTableKeys ↔
      x ∈ Territory.supported_territory_codes db := by
  have hscc : ∀ y, y ∈ Territory.supported_country_codes db →
      y ∈ Territory.supported_territory_codes db := fun y hy =>
    List.mem_append.mpr (.inl hy)
  have hssc : ∀ y, y ∈ Territory.supported_subdivision_codes db →
      y ∈ Territory.supported_territory_codes db := fun y hy =>
    List.mem_append.mpr (.inr hy)
  have hpart : ∀ y,
      (y ∈ db.countries.map (fun r => r.alpha_2) ∨
       y ∈ Territory.COUNTRY_ALIASES.map (fun p => p.1) ∨
       y ∈ Territory.FOREIGN_TERRITORIES_ALIAS_TO_COUNTRY.map (fun p => p.1) ∨
       y ∈ Territory.COUNTRY_ALIAS_TO_SUBDIVISION.map (fun p => p.1)) →
      y ∈ Territory.supported_country_codes db := by
    intro y hy
    unfold Territory.supported_country_codes
    simp only [List.append_assoc, List.mem_append]
    tauto
  constructor
  · intro h
    rcases List.mem_append.mp h with h | h
    · exact h
    · unfold allAliasTableKeys at h
      simp only [List.append_assoc, List.mem_append] at h
      rcases h with h | h | h | h | h | h
      · exact hscc x (hpart x (.inr (.inl h)))
      · exact hscc x (hpart x (.inr (.inr (.inl h))))
      · obtain ⟨p, hp, rfl⟩ := List.mem_map.mp h
        exact hssc _ (hSC p hp)
      · obtain ⟨p, hp, rfl⟩ := List.mem_map.mp h
        exact hssc _ (hSA p hp)
      · obtain ⟨p, hp, rfl⟩ := List.mem_map.mp h
        exact hscc _ (hpart _ (.inl (hFTM p hp)))
      · exact hscc x (hpart x (.inr (.inr (.inr h))))
  · intro h
    exact List.mem_append.mpr (.inl h)

/-- C1: `normalize_territory_code` first trims and upper-cases its input;
it fails exactly when the result is outside the union of the supported
country codes, the supported subdivision codes and the keys of every alias
table; otherwise it returns the outcome of the resolution chain in the
claimed order (foreign-territory aliases, country aliases, then under
`resolve_aliases` subdivision aliases and subdivision/country overlaps,
then under `resole_foreign_territory` the political attachment), with no
side effects.  The hypotheses state that, as in the real dataset, the
subdivision-alias and overlap keys are known subdivisions and the
foreign-territory keys are known countries. -/
theorem C1_normalize_territory_code_contract (db : DB)
    (hSA : ∀ p ∈ Territory.SUBDIVISION_ALIASES,
      p.1 ∈ Territory.supported_subdivision_codes db)
    (hSC : ∀ p ∈ Territory.SUBDIVISION_COUNTRIES,
      p.1 ∈ Territory.supported_subdivision_codes db)
    (hFTM : ∀ p ∈ Territory.FOREIGN_TERRITORIES_MAPPING,
      p.1 ∈ db.countries.map (fun r => r.alpha_2))
    (s : String) (ra rf : Bool) :
    ((∃ e, Territory.normalize_territory_code db s ra rf = .error e) ↔
      pyStripUpper s ∉
        Territory.supported_territory_codes db ++ allAliasTableKeys) ∧
    (pyStripUpper s ∈
        Territory.supported_territory_codes db ++ allAliasTableKeys →
      Territory.normalize_territory_code db s ra rf = .ok (
        let t0 := pyStripUpper s
        let t1 :=
          (Territory.FOREIGN_TERRITORIES_ALIAS_TO_COUNTRY.lookup t0).getD t0
        let t2 := (Territory.COUNTRY_ALIASES.lookup t1).getD t1
        let t3 :=
          if ra then (Territory.SUBDIVISION_ALIASES.lookup t2).getD t2 else t2
        let t4 :=
          if ra then (Territory.SUBDIVISION_COUNTRIES.lookup t3).getD t3
          else t3
        if rf then Territory.territory_attachment t4 else t4)) := by
  have hiff := mem_stc_append_alias_keys db hSA hSC hFTM (pyStripUpper s)
  by_cases hmem :
      pyStripUpper s ∈ Territory.supported_territory_codes db
  · constructor
    · constructor
      · intro ⟨e, he⟩
        unfold Territory.normalize_territory_code at he
        rw [if_neg (by simpa using hmem)] at he
        exact absurd he (by simp)
      · intro h
        exact absurd (hiff.mpr hmem) h
    · intro _
      unfold Territory.normalize_territory_code
      rw [if_neg (by simpa using hmem)]
  · constructor
    · constructor
      · intro _
        intro hc
        exact hmem (hiff.mp hc)
      · intro _
        refine ⟨"Unrecognized territory code.", ?_⟩
        unfold Territory.normalize_territory_code
        rw [if_pos (by simpa using hmem)]
    · intro hc
      exact absurd (hiff.mp hc) hmem

/-- C1 witness: at the concrete database, `" zz "` is rejected and
`" nl-bq1 "` is trimmed, upper-cased and resolved through the chain. -/
theorem C1_normalize_territory_code_contract_witness :
    (∃ e, Territory.normalize_territory_code sampleDB " zz " true false =
      .error e) ∧
    Territory.normalize_territory_code sampleDB " nl-bq1 " true false =
      .ok "BQ-BO" := by
  constructor
  · exact (C1_normalize_territory_code_contract sampleDB (by decide)
      (by decide) (by decide) " zz " true false).1.mpr (by decide)
  · have h := (C1_normalize_territory_code_contract sampleDB (by decide)
      (by decide) (by decide) " nl-bq1 " true false).2 (by decide)
    rw [h]
    rfl

/-! ## C8: the `validate()` contract -/

/-- C8: `validate()` fails with `InvalidSubdivisionCode` exactly on an
unknown set subdivision code, with `InvalidCountryCode` exactly on an
unknown set country code, with `CountrySubdivisionMismatch` exactly when
both are set and the resolved parent country differs, with
`MissingRequiredField` naming a missing field exactly when one of the four
required components is absent, each check shadowed by the previous ones as
in the source, and returns without error in every other state. -/
theorem C8_validate_contract (db : DB) (a : AddressPy.Addr) :
    (AddressPy.validate db a =
        .error (.invalidSubdivisionCode (a.subdivision_code.getD "")) ↔
      subdivisionUnknown db a) ∧
    (AddressPy.validate db a =
        .error (.invalidCountryCode (a.country_code.getD "")) ↔
      ¬ subdivisionUnknown db a ∧ countryUnknown db a) ∧
    (AddressPy.validate db a =
        .error (.countrySubdivisionMismatch (a.country_code.getD "")
          (a.subdivision_code.getD "")) ↔
      ¬ subdivisionUnknown db a ∧ ¬ countryUnknown db a ∧
        countrySubdivMismatch db a) ∧
    ((∃ f, AddressPy.validate db a = .error (.missingRequiredField f)) ↔
      ¬ subdivisionUnknown db a ∧ ¬ countryUnknown db a ∧
        ¬ countrySubdivMismatch db a ∧ requiredMissing a) ∧
    (∀ f, AddressPy.validate db a = .error (.missingRequiredField f) →
      f ∈ AddressPy.REQUIRED_FIELDS ∧ AddressPy.truthyO (a.get f) = false) ∧
    (AddressPy.validate db a = .ok () ↔
      ¬ subdivisionUnknown db a ∧ ¬ countryUnknown db a ∧
        ¬ countrySubdivMismatch db a ∧ ¬ requiredMissing a) := by
  have hsub : (AddressPy.truthyO a.subdivision_code = true ∧
      (db.getSubdivision (a.subdivision_code.getD "")).isNone = true) ↔
      subdivisionUnknown db a := by
    unfold subdivisionUnknown
    rw [Option.isNone_iff_eq_none]
  have hcty : (AddressPy.truthyO a.country_code = true ∧
      (db.getCountry (a.country_code.getD "")).isNone = true) ↔
      countryUnknown db a := by
    unfold countryUnknown
    rw [Option.isNone_iff_eq_none]
  unfold AddressPy.validate
  split_ifs with h1 h2 h3
  · have hc1 : subdivisionUnknown db a := hsub.mp h1
    refine ⟨⟨fun _ => hc1, fun _ => rfl⟩, ?_, ?_, ?_, ?_, ?_⟩
    · constructor
      · intro h; exact absurd h (by simp)
      · intro ⟨hn, _⟩; exact absurd hc1 hn
    · constructor
      · intro h; exact absurd h (by simp)
      · intro ⟨hn, _⟩; exact absurd hc1 hn
    · constructor
      · intro ⟨f, h⟩; exact absurd h (by simp)
      · intro ⟨hn, _⟩; exact absurd hc1 hn
    · intro f h; exact absurd h (by simp)
    · constructor
      · intro h; exact absurd h (by simp)
      · intro ⟨hn, _⟩; exact absurd hc1 hn
  · have hn1 : ¬ subdivisionUnknown db a := fun hc => h1 (hsub.mpr hc)
    have hc2 : countryUnknown db a := hcty.mp h2
    refine ⟨?_, ⟨fun _ => ⟨hn1, hc2⟩, fun _ => rfl⟩, ?_, ?_, ?_, ?_⟩
    · constructor
      · intro h; exact absurd h (by simp)
      · intro hc; exact absurd hc hn1
    · constructor
      · intro h; exact absurd h (by simp)
      · intro ⟨_, hn, _⟩; exact absurd hc2 hn
    · constructor
      · intro ⟨f, h⟩; exact absurd h (by simp)
      · intro ⟨_, hn, _⟩; exact absurd hc2 hn
    · intro f h; exact absurd h (by simp)
    · constructor
      · intro h; exact absurd h (by simp)
      · intro ⟨_, hn, _⟩; exact absurd hc2 hn
  · have hn1 : ¬ subdivisionUnknown db a := fun hc => h1 (hsub.mpr hc)
    have hn2 : ¬ countryUnknown db a := fun hc => h2 (hcty.mpr hc)
    have hc3 : countrySubdivMismatch db a := by
      obtain ⟨ha, hb, hcne⟩ := h3
      exact ⟨ha, hb, hcne⟩
    refine ⟨?_, ?_, ⟨fun _ => ⟨hn1, hn2, hc3⟩, fun _ => rfl⟩, ?_, ?_, ?_⟩
    · constructor
      · intro h; exact absurd h (by simp)
      · intro hc; exact absurd hc hn1
    · constructor
      · intro h; exact absurd h (by simp)
      · intro ⟨_, hc⟩; exact absurd hc hn2
    · constructor
      · intro ⟨f, h⟩; exact absurd h (by simp)
      · intro ⟨_, _, hn, _⟩; exact absurd hc3 hn
    · intro f h; exact absurd h (by simp)
    · constructor
      · intro h; exact absurd h (by simp)
      · intro ⟨_, _, hn, _⟩; exact absurd hc3 hn
  · have hn1 : ¬ subdivisionUnknown db a := fun hc => h1 (hsub.mpr hc)
    have hn2 : ¬ countryUnknown db a := fun hc => h2 (hcty.mpr hc)
    have hn3 : ¬ countrySubdivMismatch db a := fun hc => h3 ⟨hc.1, hc.2.1, hc.2.2⟩
    cases hf : AddressPy.REQUIRED_FIELDS.find?
        (fun f => !(AddressPy.truthyO (a.get f))) with
    | some f0 =>
      have hmem := List.mem_of_find?_eq_some hf
      have hval := List.find?_some hf
      have hmiss : requiredMissing a :=
        ⟨f0, hmem, by simpa using hval⟩
      refine ⟨?_, ?_, ?_, ?_, ?_, ?_⟩
      · constructor
        · intro h; exact absurd h (by simp)
        · intro hc; exact absurd hc hn1
      · constructor
        · intro h; exact absurd h (by simp)
        · intro ⟨_, hc⟩; exact absurd hc hn2
      · constructor
        · intro h; exact absurd h (by simp)
        · intro ⟨_, _, hc⟩; exact absurd hc hn3
      · exact ⟨fun _ => ⟨hn1, hn2, hn3, hmiss⟩, fun _ => ⟨f0, rfl⟩⟩
      · intro f h
        have : f0 = f := by simpa using h
        subst this
        exact ⟨hmem, by simpa using hval⟩
      · constructor
        · intro h; exact absurd h (by simp)
        · intro ⟨_, _, _, hn⟩; exact absurd hmiss hn
    | none =>
      have hnone : ¬ requiredMissing a := by
        intro ⟨f, hfm, hfv⟩
        have := List.find?_eq_none.mp hf f hfm
        simp only [Bool.not_eq_true'] at this
        simp [this] at hfv
      refine ⟨?_, ?_, ?_, ?_, ?_, ?_⟩
      · constructor
        · intro h; exact absurd h (by simp)
        · intro hc; exact absurd hc hn1
      · constructor
        · intro h; exact absurd h (by simp)
        · intro ⟨_, hc⟩; exact absurd hc hn2
      · constructor
        · intro h; exact absurd h (by simp)
        · intro ⟨_, _, hc⟩; exact absurd hc hn3
      · constructor
        · intro ⟨f, h⟩; exact absurd h (by simp)
        · intro ⟨_, _, _, hc⟩; exact absurd hc hnone
      · intro f h; exact absurd h (by simp)
      · exact ⟨fun _ => ⟨hn1, hn2, hn3, hnone⟩, fun _ => rfl⟩

/-! ## C2: idempotence of `normalize_territory_code` -/

/-- Every value of the four resolution tables is fixed by every one of the
four lookups: the alias graph of the static tables has no two-step path. -/
theorem alias_values_fixed :
    ∀ v ∈ Territory.FOREIGN_TERRITORIES_ALIAS_TO_COUNTRY.map (fun p => p.2) ++
        Territory.COUNTRY_ALIASES.map (fun p => p.2) ++
        Territory.SUBDIVISION_ALIASES.map (fun p => p.2) ++
        Territory.SUBDIVISION_COUNTRIES.map (fun p => p.2),
      Territory.FOREIGN_TERRITORIES_ALIAS_TO_COUNTRY.lookup v = none ∧
      Territory.COUNTRY_ALIASES.lookup v = none ∧
      Territory.SUBDIVISION_ALIASES.lookup v = none ∧
      Territory.SUBDIVISION_COUNTRIES.lookup v = none := by decide

/-- The concrete country-shaped alias keys are strip/upper-fixed. -/
theorem alias_keys_canonical :
    ∀ x ∈ Territory.COUNTRY_ALIASES.map (fun p => p.1) ++
        Territory.FOREIGN_TERRITORIES_ALIAS_TO_COUNTRY.map (fun p => p.1) ++
        Territory.COUNTRY_ALIAS_TO_SUBDIVISION.map (fun p => p.1),
      pyStripUpper x = x := by decide

/-- A `table.get(x, x)` step keeps the code inside the supported set when
every table value is supported. -/
theorem chain_step_mem_stc (db : DB) (tab : List (String × String))
    (x : String)
    (htab : ∀ v ∈ tab.map (fun p => p.2),
      v ∈ Territory.supported_territory_codes db)
    (hx : x ∈ Territory.supported_territory_codes db) :
    (tab.lookup x).getD x ∈ Territory.supported_territory_codes db := by
  cases hl : tab.lookup x with
  | none => simpa using hx
  | some v =>
    simp only [Option.getD_some]
    exact htab v (List.mem_map.mpr ⟨(x, v), lookup_mem tab x v hl, rfl⟩)

/-- Every supported code of a canonical database is strip/upper-fixed. -/
theorem mem_stc_canonical (db : DB)
    (hcanonC : ∀ c ∈ db.countries, pyStripUpper c.alpha_2 = c.alpha_2)
    (hcanonS : ∀ s ∈ db.subdivisions, pyStripUpper s.code = s.code)
    (x : String) (hx : x ∈ Territory.supported_territory_codes db) :
    pyStripUpper x = x := by
  rcases List.mem_append.mp hx with h | h
  · unfold Territory.supported_country_codes at h
    simp only [List.append_assoc, List.mem_append] at h
    rcases h with h | h | h | h
    · obtain ⟨crec, hc, rfl⟩ := List.mem_map.mp h
      exact hcanonC crec hc
    · exact alias_keys_canonical x (by simp [h])
    · exact alias_keys_canonical x (by simp [h])
    · exact alias_keys_canonical x (by simp [h])
  · obtain ⟨srec, hs, rfl⟩ := List.mem_map.mp h
    exact hcanonS srec hs

/-- On a recognized code, `normalize_territory_code` with the attachment
step disabled returns exactly the resolution chain. -/
theorem normalize_eq_resolveChain (db : DB) (s : String) (ra : Bool)
    (hmem : pyStripUpper s ∈ Territory.supported_territory_codes db) :
    Territory.normalize_territory_code db s ra false =
      .ok (resolveChain ra (pyStripUpper s)) := by
  unfold Territory.normalize_territory_code resolveChain
  rw [if_neg (by simpa using hmem)]
  simp

/-- The output of the resolution chain hits no key of the first two tables
and, under `resolve_aliases`, no key of the last two either. -/
theorem resolveChain_fixedpoint (ra : Bool) (t0 : String) :
    Territory.FOREIGN_TERRITORIES_ALIAS_TO_COUNTRY.lookup
      (resolveChain ra t0) = none ∧
    Territory.COUNTRY_ALIASES.lookup (resolveChain ra t0) = none ∧
    (ra = true →
      Territory.SUBDIVISION_ALIASES.lookup (resolveChain ra t0) = none ∧
      Territory.SUBDIVISION_COUNTRIES.lookup (resolveChain ra t0) = none) := by
  have hfix : ∀ v,
      v ∈ Territory.FOREIGN_TERRITORIES_ALIAS_TO_COUNTRY.map (fun p => p.2) ++
        Territory.COUNTRY_ALIASES.map (fun p => p.2) ++
        Territory.SUBDIVISION_ALIASES.map (fun p => p.2) ++
        Territory.SUBDIVISION_COUNTRIES.map (fun p => p.2) →
      Territory.FOREIGN_TERRITORIES_ALIAS_TO_COUNTRY.lookup v = none ∧
      Territory.COUNTRY_ALIASES.lookup v = none ∧
      Territory.SUBDIVISION_ALIASES.lookup v = none ∧
      Territory.SUBDIVISION_COUNTRIES.lookup v = none := alias_values_fixed
  cases hl1 : Territory.FOREIGN_TERRITORIES_ALIAS_TO_COUNTRY.lookup t0 with
  | some v =>
    have hv := hfix v (by
      have hm : v ∈ Territory.FOREIGN_TERRITORIES_ALIAS_TO_COUNTRY.map
          (fun p => p.2) :=
        List.mem_map.mpr ⟨(t0, v), lookup_mem _ _ _ hl1, rfl⟩
      simp [hm])
    have hc : resolveChain ra t0 = v := by
      unfold resolveChain
      cases ra <;>
        simp [hl1, hv.1, hv.2.1, hv.2.2.1, hv.2.2.2]
    rw [hc]
    exact ⟨hv.1, hv.2.1, fun _ => ⟨hv.2.2.1, hv.2.2.2⟩⟩
  | none =>
    cases hl2 : Territory.COUNTRY_ALIASES.lookup t0 with
    | some v =>
      have hv := hfix v (by
        have hm : v ∈ Territory.COUNTRY_ALIASES.map (fun p => p.2) :=
          List.mem_map.mpr ⟨(t0, v), lookup_mem _ _ _ hl2, rfl⟩
        simp [hm])
      have hc : resolveChain ra t0 = v := by
        unfold resolveChain
        cases ra <;>
          simp [hl1, hl2, hv.1, hv.2.1, hv.2.2.1, hv.2.2.2]
      rw [hc]
      exact ⟨hv.1, hv.2.1, fun _ => ⟨hv.2.2.1, hv.2.2.2⟩⟩
    | none =>
      cases ra with
      | false =>
        have hc : resolveChain false t0 = t0 := by
          unfold resolveChain
          simp [hl1, hl2]
        rw [hc]
        exact ⟨hl1, hl2, fun hcontra => by cases hcontra⟩
      | true =>
        cases hl3 : Territory.SUBDIVISION_ALIASES.lookup t0 with
        | some v =>
          have hv := hfix v (by
            have hm : v ∈ Territory.SUBDIVISION_ALIASES.map (fun p => p.2) :=
              List.mem_map.mpr ⟨(t0, v), lookup_mem _ _ _ hl3, rfl⟩
            simp [hm])
          have hc : resolveChain true t0 = v := by
            unfold resolveChain
            simp [hl1, hl2, hl3, hv.2.2.2]
          rw [hc]
          exact ⟨hv.1, hv.2.1, fun _ => ⟨hv.2.2.1, hv.2.2.2⟩⟩
        | none =>
          cases hl4 : Territory.SUBDIVISION_COUNTRIES.lookup t0 with
          | some v =>
            have hv := hfix v (by
              have hm : v ∈ Territory.SUBDIVISION_COUNTRIES.map
                  (fun p => p.2) :=
                List.mem_map.mpr ⟨(t0, v), lookup_mem _ _ _ hl4, rfl⟩
              simp [hm])
            have hc : resolveChain true t0 = v := by
              unfold resolveChain
              simp [hl1, hl2, hl3, hl4]
            rw [hc]
            exact ⟨hv.1, hv.2.1, fun _ => ⟨hv.2.2.1, hv.2.2.2⟩⟩
          | none =>
            have hc : resolveChain true t0 = t0 := by
              unfold resolveChain
              simp [hl1, hl2, hl3, hl4]
            rw [hc]
            exact ⟨hl1, hl2, fun _ => ⟨hl3, hl4⟩⟩

/-- A code fixed by the applicable lookups is fixed by the whole chain. -/
theorem resolveChain_id_of_fixed (ra : Bool) (t : String)
    (h1 : Territory.FOREIGN_TERRITORIES_ALIAS_TO_COUNTRY.lookup t = none)
    (h2 : Territory.COUNTRY_ALIASES.lookup t = none)
    (h34 : ra = true →
      Territory.SUBDIVISION_ALIASES.lookup t = none ∧
      Territory.SUBDIVISION_COUNTRIES.lookup t = none) :
    resolveChain ra t = t := by
  unfold resolveChain
  cases ra with
  | false => simp [h1, h2]
  | true =>
    obtain ⟨h3, h4⟩ := h34 rfl
    simp [h1, h2, h3, h4]

/-- The chain keeps recognized codes recognized when the table values are
themselves recognized. -/
theorem resolveChain_mem_stc (db : DB)
    (hvals : ∀ v ∈
        Territory.FOREIGN_TERRITORIES_ALIAS_TO_COUNTRY.map (fun p => p.2) ++
        Territory.COUNTRY_ALIASES.map (fun p => p.2) ++
        Territory.SUBDIVISION_ALIASES.map (fun p => p.2) ++
        Territory.SUBDIVISION_COUNTRIES.map (fun p => p.2),
      v ∈ Territory.supported_territory_codes db)
    (ra : Bool) (t0 : String)
    (h : t0 ∈ Territory.supported_territory_codes db) :
    resolveChain ra t0 ∈ Territory.supported_territory_codes db := by
  have hFTACv : ∀ v ∈
      Territory.FOREIGN_TERRITORIES_ALIAS_TO_COUNTRY.map (fun p => p.2),
      v ∈ Territory.supported_territory_codes db :=
    fun v hv => hvals v (by simp [hv])
  have hCAv : ∀ v ∈ Territory.COUNTRY_ALIASES.map (fun p => p.2),
      v ∈ Territory.supported_territory_codes db :=
    fun v hv => hvals v (by simp [hv])
  have hSAv : ∀ v ∈ Territory.SUBDIVISION_ALIASES.map (fun p => p.2),
      v ∈ Territory.supported_territory_codes db :=
    fun v hv => hvals v (by simp [hv])
  have hSCv : ∀ v ∈ Territory.SUBDIVISION_COUNTRIES.map (fun p => p.2),
      v ∈ Territory.supported_territory_codes db :=
    fun v hv => hvals v (by simp [hv])
  unfold resolveChain
  cases ra with
  | false =>
    simp only [Bool.false_eq_true, if_false]
    exact chain_step_mem_stc db _ _ hCAv (chain_step_mem_stc db _ _ hFTACv h)
  | true =>
    simp only [if_pos rfl]
    exact chain_step_mem_stc db _ _ hSCv (chain_step_mem_stc db _ _ hSAv
      (chain_step_mem_stc db _ _ hCAv (chain_step_mem_stc db _ _ hFTACv h)))

/-- C2: with the foreign-territory attachment disabled, resolving an
already-resolved code is a no-op: `normalize_territory_code` is idempotent
on every recognized code.  The hypotheses state that, as in the real
dataset, the values of the four resolution tables are themselves
recognized and every database code is a trimmed upper-case string. -/
theorem C2_normalize_idempotent (db : DB)
    (hvals : ∀ v ∈
        Territory.FOREIGN_TERRITORIES_ALIAS_TO_COUNTRY.map (fun p => p.2) ++
        Territory.COUNTRY_ALIASES.map (fun p => p.2) ++
        Territory.SUBDIVISION_ALIASES.map (fun p => p.2) ++
        Territory.SUBDIVISION_COUNTRIES.map (fun p => p.2),
      v ∈ Territory.supported_territory_codes db)
    (hcanonC : ∀ c ∈ db.countries, pyStripUpper c.alpha_2 = c.alpha_2)
    (hcanonS : ∀ s ∈ db.subdivisions, pyStripUpper s.code = s.code)
    (ra : Bool) (c r : String)
    (h : Territory.normalize_territory_code db c ra false = .ok r) :
    Territory.normalize_territory_code db r ra false = .ok r := by
  have hmem : pyStripUpper c ∈ Territory.supported_territory_codes db := by
    by_contra hmem
    unfold Territory.normalize_territory_code at h
    rw [if_pos (by simpa using hmem)] at h
    exact absurd h (by simp)
  rw [normalize_eq_resolveChain db c ra hmem] at h
  have hr : r = resolveChain ra (pyStripUpper c) := (Except.ok.inj h).symm
  subst hr
  have hm : resolveChain ra (pyStripUpper c) ∈
      Territory.supported_territory_codes db :=
    resolveChain_mem_stc db hvals ra (pyStripUpper c) hmem
  have hcanonr : pyStripUpper (resolveChain ra (pyStripUpper c)) =
      resolveChain ra (pyStripUpper c) :=
    mem_stc_canonical db hcanonC hcanonS _ hm
  rw [normalize_eq_resolveChain db _ ra (by rw [hcanonr]; exact hm)]
  rw [hcanonr]
  obtain ⟨hf1, hf2, hf34⟩ := resolveChain_fixedpoint ra (pyStripUpper c)
  rw [resolveChain_id_of_fixed ra _ hf1 hf2 hf34]

/-- C2 witness: resolving the already-resolved form of `NL-BQ1` is a
no-op on the concrete database. -/
theorem C2_normalize_idempotent_witness :
    Territory.normalize_territory_code sampleDB "BQ-BO" true false =
      .ok "BQ-BO" :=
  C2_normalize_idempotent sampleDB (by decide) (by decide) (by decide)
    true "NL-BQ1" "BQ-BO" (by rfl)

/-! ## C7: `country_from_subdivision` versus `territory_parents` -/

/-- C7 counterexample: `NL-BQ1` is a recognized subdivision of the real
dataset with parent country `NL`, but the normalization inside
`territory_parents` resolves the subdivision alias `NL-BQ1` to `BQ-BO`
first, so the chain ends at the country `BQ` while
`country_from_subdivision` (which only consults the overlap table) returns
`NL`. -/
theorem C7_country_from_subdivision_counterexample :
    Territory.country_from_subdivision sampleDB "NL-BQ1" = some "NL" ∧
    ((Territory.territory_parentsF 2 sampleDB "NL-BQ1" true).getD
      []).getLast?.map Territory.Entity.code = some "BQ" ∧
    ("NL" : String) ≠ "BQ" :=
  ⟨rfl, rfl, by decide⟩

/-- One-step unfolding of the parent-chain walk on a missing code. -/
theorem walkChainF_succ_none (db : DB) (code : String) (n : Nat)
    (h : db.getSubdivision code = none) :
    Territory.walkChainF (n + 1) db code = none := by
  simp only [Territory.walkChainF]
  rw [h]

/-- One-step unfolding of the parent-chain walk on a found subdivision. -/
theorem walkChainF_succ_some (db : DB) (code : String) (n : Nat)
    (sub : SubdivisionRec) (h : db.getSubdivision code = some sub) :
    Territory.walkChainF (n + 1) db code =
      (if sub.parent_code = "" then some ([sub], code)
       else (Territory.walkChainF n db sub.parent_code).map
        (fun p => (sub :: p.1, p.2))) := by
  simp only [Territory.walkChainF]
  rw [h]

/-- Fuel monotonicity of the parent-chain walk. -/
theorem walkChainF_mono (db : DB) :
    ∀ (n : Nat) (c : String) (r : List SubdivisionRec × String),
      Territory.walkChainF n db c = some r →
      Territory.walkChainF (n + 1) db c = some r := by
  intro n
  induction n with
  | zero => intro c r h; exact absurd h (by simp [Territory.walkChainF])
  | succ n ih =>
    intro c r h
    cases hg : db.getSubdivision c with
    | none =>
      rw [walkChainF_succ_none db c n hg] at h
      exact absurd h (by simp)
    | some sub =>
      rw [walkChainF_succ_some db c n sub hg] at h
      rw [walkChainF_succ_some db c (n + 1) sub hg]
      by_cases hp : sub.parent_code = ""
      · rw [if_pos hp] at h ⊢; exact h
      · rw [if_neg hp] at h ⊢
        obtain ⟨q, hq, hqr⟩ := Option.map_eq_some'.mp h
        rw [ih _ q hq]
        simpa using hqr

/-- Under a ranked, parent-consistent database the parent-chain walk of
`territory_parents` succeeds, and it ends on a top subdivision with the
same resolved country code as the starting subdivision. -/
theorem walkChainF_exists (db : DB) (ρ : String → Nat)
    (hRank : ∀ sub ∈ db.subdivisions, sub.parent_code ≠ "" →
      ρ sub.parent_code < ρ sub.code)
    (hParent : ∀ sub ∈ db.subdivisions, sub.parent_code ≠ "" →
      (db.getSubdivision sub.parent_code).map (fun r => r.country_code) =
        some sub.country_code) :
    ∀ (N : Nat) (c : String) (sub : SubdivisionRec), ρ c ≤ N →
      db.getSubdivision c = some sub →
      ∃ n tree top topSub, Territory.walkChainF n db c = some (tree, top) ∧
        db.getSubdivision top = some topSub ∧
        topSub.country_code = sub.country_code ∧
        tree.head? = some sub := by
  intro N
  induction N with
  | zero =>
    intro c sub hρ hc
    have hmem := List.mem_of_find?_eq_some hc
    have hcode : sub.code = c := by simpa using List.find?_some hc
    by_cases hp : sub.parent_code = ""
    · refine ⟨1, [sub], c, sub, ?_, hc, rfl, rfl⟩
      rw [walkChainF_succ_some db c 0 sub hc, if_pos hp]
    · have := hRank sub hmem hp
      rw [hcode] at this
      omega
  | succ N ih =>
    intro c sub hρ hc
    have hmem := List.mem_of_find?_eq_some hc
    have hcode : sub.code = c := by simpa using List.find?_some hc
    by_cases hp : sub.parent_code = ""
    · refine ⟨1, [sub], c, sub, ?_, hc, rfl, rfl⟩
      rw [walkChainF_succ_some db c 0 sub hc, if_pos hp]
    · obtain ⟨psub, hpsub, hpcc⟩ :=
        Option.map_eq_some'.mp (hParent sub hmem hp)
      have hρp : ρ sub.parent_code ≤ N := by
        have := hRank sub hmem hp
        rw [hcode] at this
        omega
      obtain ⟨n, tree, top, topSub, hwalk, htop, htopcc, hhead⟩ :=
        ih sub.parent_code psub hρp hpsub
      refine ⟨n + 1, sub :: tree, top, topSub, ?_, htop, ?_, rfl⟩
      · rw [walkChainF_succ_some db c n sub hc, if_neg hp, hwalk]
        rfl
      · rw [htopcc, hpcc]

/-- C7 amended: for a recognized subdivision code that is not a key of the
subdivision-alias table, `country_from_subdivision` returns exactly the
code of the last element of `territory_parents(s, include_country=true)`.
(The claim as stated fails on the three subdivision-alias keys; see the
counterexample.)  The hypotheses describe the real dataset: ranked acyclic
parent chains, parent and country lookups that succeed and agree on the
country code, subdivision codes distinct from all country-shaped codes,
and overlap-table values that are recognized countries. -/
theorem C7_country_from_subdivision_amended (db : DB) (ρ : String → Nat)
    (hRank : ∀ sub ∈ db.subdivisions, sub.parent_code ≠ "" →
      ρ sub.parent_code < ρ sub.code)
    (hParent : ∀ sub ∈ db.subdivisions, sub.parent_code ≠ "" →
      (db.getSubdivision sub.parent_code).map (fun r => r.country_code) =
        some sub.country_code)
    (hCountry : ∀ sub ∈ db.subdivisions,
      (db.getCountry sub.country_code).isSome)
    (hNotC : ∀ sub ∈ db.subdivisions,
      sub.code ∉ Territory.supported_country_codes db)
    (hSCv : ∀ p ∈ Territory.SUBDIVISION_COUNTRIES,
      p.2 ∈ Territory.supported_country_codes db ∧
        (db.getCountry p.2).isSome)
    (s : String) (sub : SubdivisionRec)
    (hs : db.getSubdivision s = some sub)
    (hcanon : pyStripUpper s = s)
    (hSA : Territory.SUBDIVISION_ALIASES.lookup s = none)
    (hFTAC : Territory.FOREIGN_TERRITORIES_ALIAS_TO_COUNTRY.lookup s = none)
    (hCA : Territory.COUNTRY_ALIASES.lookup s = none) :
    ∃ n tree e, Territory.territory_parentsF n db s true = some tree ∧
      tree.getLast? = some e ∧
      Territory.country_from_subdivision db s = some e.code := by
  have hmem := List.mem_of_find?_eq_some hs
  have hcode : sub.code = s := by simpa using List.find?_some hs
  have hssc : s ∈ Territory.supported_subdivision_codes db :=
    List.mem_map.mpr ⟨sub, hmem, hcode⟩
  have hstc : s ∈ Territory.supported_territory_codes db :=
    List.mem_append.mpr (.inr hssc)
  have hstc' : pyStripUpper s ∈ Territory.supported_territory_codes db := by
    rw [hcanon]; exact hstc
  cases hSC : Territory.SUBDIVISION_COUNTRIES.lookup s with
  | some v =>
    obtain ⟨hvscc, hvc⟩ := hSCv (s, v) (lookup_mem _ _ _ hSC)
    obtain ⟨crec, hcrec⟩ := Option.isSome_iff_exists.mp hvc
    have hcrecα : crec.alpha_2 = v := by
      simpa using List.find?_some hcrec
    have hntc : Territory.normalize_territory_code db s = .ok v := by
      rw [normalize_eq_resolveChain db s true hstc']
      rw [hcanon]
      unfold resolveChain
      simp [hFTAC, hCA, hSA, hSC]
    refine ⟨1, [.country crec], .country crec, ?_, rfl, ?_⟩
    · simp only [Territory.territory_parentsF, hntc, Except.toOption]
      simp [hvscc, hcrec]
    · simp only [Territory.country_from_subdivision, hSC, Option.getD_some]
      rw [if_pos hvscc]
      simp [Territory.Entity.code, hcrecα]
  | none =>
    have hnotc : s ∉ Territory.supported_country_codes db := by
      have := hNotC sub hmem
      rwa [hcode] at this
    have hntc : Territory.normalize_territory_code db s = .ok s := by
      rw [normalize_eq_resolveChain db s true hstc']
      rw [hcanon]
      rw [resolveChain_id_of_fixed true s hFTAC hCA (fun _ => ⟨hSA, hSC⟩)]
    obtain ⟨n, tree, top, topSub, hwalk, htop, htopcc, hhead⟩ :=
      walkChainF_exists db ρ hRank hParent (ρ s) s sub (le_refl _) hs
    have htopmem := List.mem_of_find?_eq_some htop
    obtain ⟨crec, hcrec⟩ :=
      Option.isSome_iff_exists.mp (hCountry topSub htopmem)
    have hcrecα : crec.alpha_2 = topSub.country_code := by
      simpa using List.find?_some hcrec
    refine ⟨n, tree.map .subdivision ++ [.country crec], .country crec,
      ?_, List.getLast?_concat _, ?_⟩
    · simp only [Territory.territory_parentsF, hntc, Except.toOption]
      simp [hnotc, hwalk, htop, hcrec]
    · simp only [Territory.country_from_subdivision, hSC, Option.getD_none]
      rw [if_neg hnotc, hs]
      simp [Territory.Entity.code, hcrecα, htopcc]

/-- C7 witness: the amended statement applied to `US-CA` on the concrete
database. -/
theorem C7_country_from_subdivision_amended_witness :
    ∃ n tree e,
      Territory.territory_parentsF n sampleDB "US-CA" true = some tree ∧
      tree.getLast? = some e ∧
      Territory.country_from_subdivision sampleDB "US-CA" = some e.code :=
  C7_country_from_subdivision_amended sampleDB sampleRho (by decide)
    (by decide) (by decide) (by decide) (by decide) "US-CA"
    ⟨"US-CA", "California", "State", "", "US"⟩ (by rfl) (by decide)
    (by decide) (by decide) (by decide)

/-! ## C6: `territory_children_codes` versus `territory_parents` -/

/-- C6 counterexample, in three parts, one for each restriction the
amended statement carries.  First, `US-CA` is among the children of the
recognized country `US`, but `territory_parents("US-CA",
include_country=false)` contains only subdivision entities, never the
country code `US` (forcing `include_country = true`).  Second, `US-AS` is
also among the children of `US`, yet even with `include_country = true`
its parents are computed after normalization maps `US-AS` to the country
`AS`, so the list is `[Country AS]` and `US` never appears (forcing the
restriction to children fixed by normalization).  Third, the children of
the country alias `UK` resolve through `COUNTRY_ALIASES` to those of
`GB`, and the parents of such a child name `GB`, never `UK` (forcing the
restriction to parents fixed by normalization). -/
theorem C6_children_parents_counterexample :
    ((Territory.territory_children_codesF 3 sampleDB "US" false).isSome ∧
     "US-CA" ∈ (Territory.territory_children_codesF 3 sampleDB "US"
       false).getD ∅ ∧
     Territory.territory_parentsF 3 sampleDB "US-CA" false =
       some [Territory.Entity.subdivision
         ⟨"US-CA", "California", "State", "", "US"⟩] ∧
     "US" ∉ ((Territory.territory_parentsF 3 sampleDB "US-CA"
       false).getD []).map Territory.Entity.code) ∧
    ("US-AS" ∈ (Territory.territory_children_codesF 3 sampleDB "US"
       false).getD ∅ ∧
     Territory.normalize_territory_code sampleDB "US-AS" = .ok "AS" ∧
     Territory.territory_parentsF 3 sampleDB "US-AS" true =
       some [Territory.Entity.country ⟨"AS", "American Samoa"⟩] ∧
     "US" ∉ ((Territory.territory_parentsF 3 sampleDB "US-AS"
       true).getD []).map Territory.Entity.code) ∧
    ("GB-SCT" ∈ (Territory.territory_children_codesF 3 sampleDB "UK"
       false).getD ∅ ∧
     Territory.normalize_territory_code sampleDB "UK" = .ok "GB" ∧
     "UK" ∉ ((Territory.territory_parentsF 3 sampleDB "GB-SCT"
       true).getD []).map Territory.Entity.code) := by
  refine ⟨⟨rfl, ?_, rfl, ?_⟩, ⟨?_, rfl, rfl, ?_⟩, ⟨?_, rfl, ?_⟩⟩ <;> decide

/-- Extend an ancestor chain by one more parent step at its top. -/
theorem AncChain.extend (db : DB) (x y : String) (suby : SubdivisionRec)
    (h : AncChain db x y) (hy : db.getSubdivision y = some suby)
    (hne : suby.parent_code ≠ "") : AncChain db x suby.parent_code := by
  induction h with
  | refl c => exact .step c suby _ hy hne (.refl _)
  | step a sub b ha hne' _ ih => exact .step a sub _ ha hne' (ih hy)

/-- Every ancestor of the start code shows up among the codes of a
successful parent-chain walk. -/
theorem AncChain.mem_walk (db : DB) (x y : String) (h : AncChain db x y) :
    ∀ (n : Nat) (tree : List SubdivisionRec) (top : String),
      Territory.walkChainF n db x = some (tree, top) →
      y ∈ tree.map (fun r => r.code) := by
  induction h with
  | refl c =>
    intro n tree top hw
    cases n with
    | zero => exact absurd hw (by simp [Territory.walkChainF])
    | succ n =>
      cases hg : db.getSubdivision c with
      | none => rw [walkChainF_succ_none db c n hg] at hw; exact absurd hw (by simp)
      | some sub =>
        have hcode : sub.code = c := by simpa using List.find?_some hg
        rw [walkChainF_succ_some db c n sub hg] at hw
        by_cases hp : sub.parent_code = ""
        · rw [if_pos hp] at hw
          have hpair := Option.some.inj hw
          have htree : [sub] = tree := congrArg Prod.fst hpair
          rw [← htree]
          simp [hcode]
        · rw [if_neg hp] at hw
          obtain ⟨q, hq, hqr⟩ := Option.map_eq_some'.mp hw
          have : tree = sub :: q.1 := by
            have := congrArg Prod.fst hqr
            simpa using this.symm
          rw [this]
          simp [hcode]
  | step a sub b ha hne hanc ih =>
    intro n tree top hw
    cases n with
    | zero => exact absurd hw (by simp [Territory.walkChainF])
    | succ n =>
      rw [walkChainF_succ_some db a n sub ha, if_neg hne] at hw
      obtain ⟨q, hq, hqr⟩ := Option.map_eq_some'.mp hw
      have htree : tree = sub :: q.1 := by
        have := congrArg Prod.fst hqr
        simpa using this.symm
      have htop : q.2 = top := by
        have := congrArg Prod.snd hqr
        simpa using this
      have hmem := ih n q.1 top (by rw [← htop]; exact hq)
      rw [htree]
      simp only [List.map_cons, List.mem_cons]
      exact .inr hmem

/-- Every code collected by the recursive children search below a
subdivision that normalization fixes is linked to it by the parent-chain
relation, is itself a recognized subdivision code, and is itself fixed by
normalization.  The hypotheses ask only that parented subdivisions are
normalization-fixed (true of the real dataset, whose alias-table keys are
all top-level subdivisions) and that subdivision codes are distinct,
non-blank and not country-shaped. -/
theorem childrenF_anc (db : DB)
    (hFixPar : ∀ sub ∈ db.subdivisions, sub.parent_code ≠ "" →
      Territory.normalize_territory_code db sub.code = .ok sub.code)
    (hNotC : ∀ sub ∈ db.subdivisions,
      sub.code ∉ Territory.supported_country_codes db)
    (hNodup : (db.subdivisions.map (fun r => r.code)).Nodup)
    (hNE : ∀ sub ∈ db.subdivisions, sub.code ≠ "") :
    ∀ (k : Nat) (c : String) (sub_c : SubdivisionRec) (S : Finset String),
      db.getSubdivision c = some sub_c →
      Territory.normalize_territory_code db c = .ok c →
      Territory.territory_children_codesF k db c true = some S →
      ∀ x ∈ S, AncChain db x c ∧
        x ∈ Territory.supported_subdivision_codes db ∧
        Territory.normalize_territory_code db x = .ok x := by
  intro k
  induction k with
  | zero =>
    intro c sub_c S _ _ hS
    exact absurd hS (by simp [Territory.territory_children_codesF])
  | succ k ih =>
    intro c sub_c S hgc hok hS x hx
    have hcmem := List.mem_of_find?_eq_some hgc
    have hccode : sub_c.code = c := by simpa using List.find?_some hgc
    have hcssc : c ∈ Territory.supported_subdivision_codes db :=
      List.mem_map.mpr ⟨sub_c, hcmem, hccode⟩
    have hnotc : c ∉ Territory.supported_country_codes db := by
      have := hNotC sub_c hcmem
      rwa [hccode] at this
    simp only [Territory.territory_children_codesF, hok,
      Except.toOption] at hS
    rw [if_neg hnotc] at hS
    cases hfold : optUnionFoldl
        (fun child_code =>
          Territory.territory_children_codesF k db child_code true)
        (some ∅)
        ((db.subdivisions.filter (fun s => s.parent_code = c)).map
          (fun s => s.code)) with
    | none => rw [hfold] at hS; exact absurd hS (by simp)
    | some codes =>
      rw [hfold] at hS
      have hSeq : S = insert c codes := by
        have := Option.some.inj hS
        simpa using this.symm
      subst hSeq
      have hcne : c ≠ "" := by
        have := hNE sub_c hcmem
        rwa [hccode] at this
      rcases Finset.mem_insert.mp hx with rfl | hxc
      · exact ⟨.refl x, hcssc, hok⟩
      · rcases optUnionFoldl_mem _ _ _ _ hfold x hxc with
          ⟨a, ha, hxa⟩ | ⟨cc, hcc, s, hs, hxs⟩
        · obtain rfl : (∅ : Finset String) = a := Option.some.inj ha
          exact absurd hxa (by simp)
        · obtain ⟨subcc, hsubcc, hsubcode⟩ := List.mem_map.mp hcc
          have hsubmem : subcc ∈ db.subdivisions :=
            (List.mem_filter.mp hsubcc).1
          have hsubpar : subcc.parent_code = c := by
            have := (List.mem_filter.mp hsubcc).2
            simpa using this
          have hgcc : db.getSubdivision cc = some subcc :=
            find?_eq_of_mem_nodup db.subdivisions subcc cc hsubmem
              hsubcode hNodup
          have hfixcc : Territory.normalize_territory_code db cc =
              .ok cc := by
            have := hFixPar subcc hsubmem (by rw [hsubpar]; exact hcne)
            rwa [hsubcode] at this
          obtain ⟨hanc, hxssc, hxfix⟩ := ih cc subcc s hgcc hfixcc hs x hxs
          refine ⟨?_, hxssc, hxfix⟩
          have := AncChain.extend db x cc subcc hanc hgcc
            (by rw [hsubpar]; exact hcne)
          rwa [hsubpar] at this

/-- C6 amended: with `include_country = true` (the claim as stated uses
`include_country = false`, under which `territory_parents` never returns a
country entity; see the counterexample's first part) and for a parent `p`
and a child `x` that are both fixed points of normalization (children such
as `US-AS` that are alias-table keys normalize to another territory and
lose `p` from their parent chain, and an alias parent such as `UK` never
names itself; see the counterexample's second and third parts), every code
collected by `territory_children_codes(p, include_self=false)` has `p`
among the codes of its `territory_parents` chain.  The database
hypotheses are true of the real dataset: parented subdivisions are fixed
by normalization (every alias-table key is a top-level subdivision),
subdivision codes are distinct, non-blank and not country-shaped, and
parent chains are ranked and country-consistent. -/
theorem C6_children_parents_amended (db : DB) (ρ : String → Nat)
    (hFixPar : ∀ sub ∈ db.subdivisions, sub.parent_code ≠ "" →
      Territory.normalize_territory_code db sub.code = .ok sub.code)
    (hNotC : ∀ sub ∈ db.subdivisions,
      sub.code ∉ Territory.supported_country_codes db)
    (hNodup : (db.subdivisions.map (fun r => r.code)).Nodup)
    (hNE : ∀ sub ∈ db.subdivisions, sub.code ≠ "")
    (hRank : ∀ sub ∈ db.subdivisions, sub.parent_code ≠ "" →
      ρ sub.parent_code < ρ sub.code)
    (hParent : ∀ sub ∈ db.subdivisions, sub.parent_code ≠ "" →
      (db.getSubdivision sub.parent_code).map (fun r => r.country_code) =
        some sub.country_code)
    (hCountry : ∀ sub ∈ db.subdivisions,
      (db.getCountry sub.country_code).isSome)
    (p : String) (hpne : p ≠ "")
    (hp : Territory.normalize_territory_code db p = .ok p)
    (k : Nat) (S : Finset String)
    (hS : Territory.territory_children_codesF k db p false = some S)
    (x : String) (hx : x ∈ S)
    (hxfix : Territory.normalize_territory_code db x = .ok x) :
    ∃ n tree, Territory.territory_parentsF n db x true = some tree ∧
      p ∈ tree.map Territory.Entity.code := by
  have finishSub : ∀ (y : String) (sub_y : SubdivisionRec),
      db.getSubdivision y = some sub_y →
      Territory.normalize_territory_code db y = .ok y →
      (AncChain db y p ∨ sub_y.country_code = p) →
      ∃ n tree, Territory.territory_parentsF n db y true = some tree ∧
        p ∈ tree.map Territory.Entity.code := by
    intro y sub_y hgy hok hcase
    have hymem := List.mem_of_find?_eq_some hgy
    have hycode : sub_y.code = y := by simpa using List.find?_some hgy
    have hnotc : y ∉ Territory.supported_country_codes db := by
      have := hNotC sub_y hymem
      rwa [hycode] at this
    obtain ⟨n, tree, top, topSub, hwalk, htop, htopcc, hhead⟩ :=
      walkChainF_exists db ρ hRank hParent (ρ y) y sub_y (le_refl _) hgy
    have htopmem := List.mem_of_find?_eq_some htop
    obtain ⟨crec, hcrec⟩ :=
      Option.isSome_iff_exists.mp (hCountry topSub htopmem)
    have hcrecα : crec.alpha_2 = topSub.country_code := by
      simpa using List.find?_some hcrec
    refine ⟨n, tree.map .subdivision ++ [.country crec], ?_, ?_⟩
    · simp only [Territory.territory_parentsF, hok, Except.toOption]
      simp [hnotc, hwalk, htop, hcrec]
    · rcases hcase with hanc | hcc
      · have hmemw := AncChain.mem_walk db y p hanc n tree top hwalk
        rw [List.map_append, List.map_map]
        refine List.mem_append.mpr (.inl ?_)
        simpa [Function.comp, Territory.Entity.code] using hmemw
      · rw [List.map_append]
        refine List.mem_append.mpr (.inr ?_)
        simp [Territory.Entity.code, hcrecα, htopcc, hcc]
  cases k with
  | zero => exact absurd hS (by simp [Territory.territory_children_codesF])
  | succ k =>
    simp only [Territory.territory_children_codesF, hp,
      Except.toOption] at hS
    by_cases hpc : p ∈ Territory.supported_country_codes db
    · rw [if_pos hpc] at hS
      have hSeq : S = ((db.subdivisions.filter
          (fun s => s.country_code = p)).map (fun s => s.code)).toFinset := by
        have := Option.some.inj hS
        simpa using this.symm
      subst hSeq
      obtain ⟨sub_x, hsubf, hsubcode⟩ :=
        List.mem_map.mp (List.mem_toFinset.mp hx)
      have hsubmem : sub_x ∈ db.subdivisions := (List.mem_filter.mp hsubf).1
      have hsubcc : sub_x.country_code = p := by
        have := (List.mem_filter.mp hsubf).2
        simpa using this
      have hgx : db.getSubdivision x = some sub_x :=
        find?_eq_of_mem_nodup db.subdivisions sub_x x hsubmem hsubcode hNodup
      exact finishSub x sub_x hgx hxfix (.inr hsubcc)
    · rw [if_neg hpc] at hS
      cases hfold : optUnionFoldl
          (fun child_code =>
            Territory.territory_children_codesF k db child_code true)
          (some ∅)
          ((db.subdivisions.filter (fun s => s.parent_code = p)).map
            (fun s => s.code)) with
      | none => rw [hfold] at hS; exact absurd hS (by simp)
      | some codes =>
        rw [hfold] at hS
        have hSeq : S = codes := by
          have := Option.some.inj hS
          simpa using this.symm
        subst hSeq
        rcases optUnionFoldl_mem _ _ _ _ hfold x hx with
          ⟨a, ha, hxa⟩ | ⟨cc, hcc, s, hs, hxs⟩
        · obtain rfl : (∅ : Finset String) = a := Option.some.inj ha
          exact absurd hxa (by simp)
        · obtain ⟨subcc, hsubcc, hsubcode⟩ := List.mem_map.mp hcc
          have hsubmem : subcc ∈ db.subdivisions :=
            (List.mem_filter.mp hsubcc).1
          have hsubpar : subcc.parent_code = p := by
            have := (List.mem_filter.mp hsubcc).2
            simpa using this
          have hgcc : db.getSubdivision cc = some subcc :=
            find?_eq_of_mem_nodup db.subdivisions subcc cc hsubmem
              hsubcode hNodup
          have hfixcc : Territory.normalize_territory_code db cc =
              .ok cc := by
            have := hFixPar subcc hsubmem (by rw [hsubpar]; exact hpne)
            rwa [hsubcode] at this
          obtain ⟨hanc, hxssc, _⟩ := childrenF_anc db hFixPar hNotC hNodup
            hNE k cc subcc s hgcc hfixcc hs x hxs
          have hancp : AncChain db x p := by
            have := AncChain.extend db x cc subcc hanc hgcc
              (by rw [hsubpar]; exact hpne)
            rwa [hsubpar] at this
          obtain ⟨sub_x, hgx⟩ := Option.isSome_iff_exists.mp (by
            show (db.subdivisions.find? (fun r => r.code = x)).isSome = true
            rw [List.find?_isSome]
            obtain ⟨sub_x, hmemx, hcodex⟩ := List.mem_map.mp hxssc
            exact ⟨sub_x, hmemx, by simpa using hcodex⟩)
          exact finishSub x sub_x hgx hxfix (.inl hancp)

/-- C6 witness: the amended statement applied on the concrete database to
the country `US` and its normalization-fixed child `US-CA`, the very pair
of the counterexample's first part. -/
theorem C6_children_parents_amended_witness :
    ∃ n tree,
      Territory.territory_parentsF n sampleDB "US-CA" true = some tree ∧
      "US" ∈ tree.map Territory.Entity.code :=
  C6_children_parents_amended sampleDB sampleRho (by decide) (by decide)
    (by decide) (by decide) (by decide) (by decide) (by decide)
    "US" (by decide) (by rfl) 1
    ((Territory.territory_children_codesF 1 sampleDB "US" false).getD ∅)
    (by rfl) "US-CA" (by decide) (by rfl)

/-! ## C3: termination of `country_aliases` -/

theorem REVERSE_MAPPING_ne_nil_mem (c : String)
    (h : Territory.REVERSE_MAPPING c ≠ []) : c ∈ REVERSE_KEYS := by
  obtain ⟨y, hy⟩ := List.exists_mem_of_ne_nil _ h
  unfold Territory.REVERSE_MAPPING at hy
  unfold REVERSE_KEYS
  rcases List.mem_append.mp hy with hy | hy
  · obtain ⟨p, hp, rfl⟩ := List.mem_map.mp hy
    have hmem := (List.mem_filter.mp hp).1
    have hval : p.2 = c := by
      have := (List.mem_filter.mp hp).2
      simpa using this
    exact List.mem_append.mpr (.inl (List.mem_map.mpr ⟨p, hmem, hval⟩))
  · obtain ⟨p, hp, rfl⟩ := List.mem_map.mp hy
    have hmem := (List.mem_filter.mp hp).1
    have hkey : p.1 = c := by
      have := (List.mem_filter.mp hp).2
      simpa using this
    exact List.mem_append.mpr (.inr (List.mem_map.mpr ⟨p, hmem, hkey⟩))

theorem caF_zero (db : DB) (tc : String) :
    Territory.country_aliasesF 0 db tc = none := rfl

theorem caF_succ_country (db : DB) (tc : String) (n : Nat)
    (hc : tc ∈ Territory.supported_country_codes db) :
    Territory.country_aliasesF (n + 1) db tc =
      optUnionFoldl (Territory.country_aliasesF n db) (some {tc})
        (Territory.REVERSE_MAPPING tc) := by
  simp only [Territory.country_aliasesF]
  rw [if_pos hc]

theorem caF_succ_nosub (db : DB) (tc : String) (n : Nat)
    (hc : tc ∉ Territory.supported_country_codes db)
    (hg : db.getSubdivision tc = none) :
    Territory.country_aliasesF (n + 1) db tc = none := by
  simp only [Territory.country_aliasesF]
  rw [if_neg hc, hg]

theorem caF_succ_sub_none (db : DB) (tc : String) (n : Nat)
    (sub : SubdivisionRec)
    (hc : tc ∉ Territory.supported_country_codes db)
    (hg : db.getSubdivision tc = some sub)
    (hpar : Territory.country_aliasesF n db
      (if sub.parent_code = "" then sub.country_code
       else sub.parent_code) = none) :
    Territory.country_aliasesF (n + 1) db tc = none := by
  simp only [Territory.country_aliasesF]
  rw [if_neg hc]
  simp only [hg]
  rw [hpar]

theorem caF_succ_sub_some (db : DB) (tc : String) (n : Nat)
    (sub : SubdivisionRec) (parents : Finset String)
    (hc : tc ∉ Territory.supported_country_codes db)
    (hg : db.getSubdivision tc = some sub)
    (hpar : Territory.country_aliasesF n db
      (if sub.parent_code = "" then sub.country_code
       else sub.parent_code) = some parents) :
    Territory.country_aliasesF (n + 1) db tc =
      optUnionFoldl (Territory.country_aliasesF n db)
        (some (match Territory.SUBDIVISION_COUNTRIES.lookup tc with
          | some v => insert v parents
          | none => parents))
        (Territory.REVERSE_MAPPING tc) := by
  simp only [Territory.country_aliasesF]
  rw [if_neg hc]
  simp only [hg]
  rw [hpar]
  cases Territory.SUBDIVISION_COUNTRIES.lookup tc <;> rfl

/-- Fuel monotonicity of the recursive alias closure. -/
theorem caF_mono (db : DB) :
    ∀ (n : Nat) (tc : String) (r : Finset String),
      Territory.country_aliasesF n db tc = some r →
      Territory.country_aliasesF (n + 1) db tc = some r := by
  intro n
  induction n with
  | zero => intro tc r h; exact absurd h (by simp [caF_zero])
  | succ n ih =>
    intro tc r h
    by_cases hc : tc ∈ Territory.supported_country_codes db
    · rw [caF_succ_country db tc n hc] at h
      rw [caF_succ_country db tc (n + 1) hc]
      exact optUnionFoldl_mono _ _ _ (fun y _ s hy => ih y s hy) _ r h
    · cases hg : db.getSubdivision tc with
      | none =>
        rw [caF_succ_nosub db tc n hc hg] at h
        exact absurd h (by simp)
      | some sub =>
        cases hpar : Territory.country_aliasesF n db
            (if sub.parent_code = "" then sub.country_code
             else sub.parent_code) with
        | none =>
          rw [caF_succ_sub_none db tc n sub hc hg hpar] at h
          exact absurd h (by simp)
        | some parents =>
          rw [caF_succ_sub_some db tc n sub parents hc hg hpar] at h
          rw [caF_succ_sub_some db tc (n + 1) sub parents hc hg
            (ih _ parents hpar)]
          exact optUnionFoldl_mono _ _ _ (fun y _ s hy => ih y s hy) _ r h

theorem caF_mono_le (db : DB) (n m : Nat) (hnm : n ≤ m) (tc : String)
    (r : Finset String) (h : Territory.country_aliasesF n db tc = some r) :
    Territory.country_aliasesF m db tc = some r := by
  induction m with
  | zero => exact (Nat.le_zero.mp hnm) ▸ h
  | succ m ihm =>
    rcases Nat.lt_or_ge n (m + 1) with hlt | hge
    · exact caF_mono db m tc r (ihm (by omega))
    · have : n = m + 1 := by omega
      rw [← this]; exact h

/-- A common fuel that makes every recursive call of a list succeed. -/
theorem caF_fold_fuel (db : DB) (l : List String)
    (h : ∀ y ∈ l, ∃ n, (Territory.country_aliasesF n db y).isSome) :
    ∃ m, ∀ y ∈ l, (Territory.country_aliasesF m db y).isSome := by
  induction l with
  | nil => exact ⟨0, by simp⟩
  | cons a t iht =>
    obtain ⟨na, hna⟩ := h a (by simp)
    obtain ⟨mt, hmt⟩ := iht (fun y hy => h y (by simp [hy]))
    refine ⟨max na mt, fun y hy => ?_⟩
    rcases List.mem_cons.mp hy with rfl | hyt
    · obtain ⟨r, hr⟩ := Option.isSome_iff_exists.mp hna
      exact Option.isSome_iff_exists.mpr
        ⟨r, caF_mono_le db na _ (Nat.le_max_left _ _) y r hr⟩
    · obtain ⟨r, hr⟩ := Option.isSome_iff_exists.mp (hmt y hyt)
      exact Option.isSome_iff_exists.mpr
        ⟨r, caF_mono_le db mt _ (Nat.le_max_right _ _) y r hr⟩

/-- One recursion layer of the termination argument: if the parent call and
every reverse-index call terminate, the call itself terminates. -/
theorem caF_exists_of (db : DB) (c : String)
    (hrec : c ∈ Territory.supported_country_codes db ∨
      (db.getSubdivision c).isSome)
    (hPar : ∀ sub, db.getSubdivision c = some sub →
      ∃ n, (Territory.country_aliasesF n db
        (if sub.parent_code = "" then sub.country_code
         else sub.parent_code)).isSome)
    (hallRM : ∀ y ∈ Territory.REVERSE_MAPPING c,
      ∃ n, (Territory.country_aliasesF n db y).isSome) :
    ∃ n, (Territory.country_aliasesF n db c).isSome := by
  obtain ⟨m0, hm0⟩ := caF_fold_fuel db (Territory.REVERSE_MAPPING c) hallRM
  by_cases hc : c ∈ Territory.supported_country_codes db
  · refine ⟨m0 + 1, ?_⟩
    rw [caF_succ_country db c m0 hc]
    exact optUnionFoldl_isSome _ _ _ rfl hm0
  · obtain ⟨sub, hg⟩ := Option.isSome_iff_exists.mp (hrec.resolve_left hc)
    obtain ⟨np, hnp⟩ := hPar sub hg
    obtain ⟨parents, hparents⟩ := Option.isSome_iff_exists.mp hnp
    have hparM : Territory.country_aliasesF (max m0 np) db
        (if sub.parent_code = "" then sub.country_code
         else sub.parent_code) = some parents :=
      caF_mono_le db np _ (Nat.le_max_right _ _) _ parents hparents
    refine ⟨max m0 np + 1, ?_⟩
    rw [caF_succ_sub_some db c (max m0 np) sub parents hc hg hparM]
    refine optUnionFoldl_isSome _ _ _ rfl (fun y hy => ?_)
    obtain ⟨r, hr⟩ := Option.isSome_iff_exists.mp (hm0 y hy)
    exact Option.isSome_iff_exists.mpr
      ⟨r, caF_mono_le db m0 _ (Nat.le_max_left _ _) y r hr⟩

/-- C3: `country_aliases` terminates on every recognized territory code.
The hypotheses exhibit a measure under which both the parent step and the
reverse-alias-index edges strictly descend (the static tables and the real
dataset are acyclic), and state that every code those edges can reach is
itself defined (a recognized country or a database subdivision). -/
theorem C3_country_aliases_terminates (db : DB) (μ : String → Nat)
    (hSubRank : ∀ sub ∈ db.subdivisions,
      μ (if sub.parent_code = "" then sub.country_code
         else sub.parent_code) < μ sub.code)
    (hSubDef : ∀ sub ∈ db.subdivisions,
      (if sub.parent_code = "" then sub.country_code
       else sub.parent_code) ∈ Territory.supported_country_codes db ∨
      (db.getSubdivision (if sub.parent_code = "" then sub.country_code
        else sub.parent_code)).isSome)
    (hRM : ∀ p ∈ REVERSE_KEYS, ∀ y ∈ Territory.REVERSE_MAPPING p,
      μ y < μ p)
    (hRMDef : ∀ p ∈ REVERSE_KEYS, ∀ y ∈ Territory.REVERSE_MAPPING p,
      y ∈ Territory.supported_country_codes db ∨
      (db.getSubdivision y).isSome)
    (c : String) (hc : c ∈ Territory.supported_territory_codes db) :
    ∃ n, (Territory.country_aliasesF n db c).isSome := by
  suffices h : ∀ (N : Nat) (d : String), μ d ≤ N →
      (d ∈ Territory.supported_country_codes db ∨
        (db.getSubdivision d).isSome) →
      ∃ n, (Territory.country_aliasesF n db d).isSome by
    refine h (μ c) c (le_refl _) ?_
    rcases List.mem_append.mp hc with hl | hr
    · exact .inl hl
    · refine .inr ?_
      show (db.subdivisions.find? (fun r => r.code = c)).isSome = true
      rw [List.find?_isSome]
      obtain ⟨sub, hmem, hcode⟩ := List.mem_map.mp hr
      exact ⟨sub, hmem, by simpa using hcode⟩
  intro N
  induction N with
  | zero =>
    intro d hμ hrec
    refine caF_exists_of db d hrec (fun sub hg => ?_) (fun y hy => ?_)
    · exfalso
      have hmem := List.mem_of_find?_eq_some hg
      have hcode : sub.code = d := by simpa using List.find?_some hg
      have hlt := hSubRank sub hmem
      rw [hcode] at hlt
      omega
    · exfalso
      have hkey := REVERSE_MAPPING_ne_nil_mem d (List.ne_nil_of_mem hy)
      have hlt := hRM d hkey y hy
      omega
  | succ N ih =>
    intro d hμ hrec
    refine caF_exists_of db d hrec (fun sub hg => ?_) (fun y hy => ?_)
    · have hmem := List.mem_of_find?_eq_some hg
      have hcode : sub.code = d := by simpa using List.find?_some hg
      have hlt := hSubRank sub hmem
      rw [hcode] at hlt
      exact ih _ (by omega) (hSubDef sub hmem)
    · have hkey := REVERSE_MAPPING_ne_nil_mem d (List.ne_nil_of_mem hy)
      have hlt := hRM d hkey y hy
      exact ih y (by omega) (hRMDef d hkey y hy)

/-- C3 witness: the termination theorem applied to the territory `HK` on
the concrete database, with the explicit measure discharged by
computation. -/
theorem C3_country_aliases_terminates_witness :
    ∃ n, (Territory.country_aliasesF n sampleDB "HK").isSome :=
  C3_country_aliases_terminates sampleDB sampleMu (by decide) (by decide)
    (by decide) (by decide) "HK" (by decide)

/-! ## C4: the conflict rule of `Address.normalize()` -/

/-- C4 counterexample: for the address with `subdivision_code = BQ-BO` and
`country_code = NL`, normalization fails with the conflict error although
`NL` is a member of `country_aliases("BQ-BO")` and differs from the new
value `BQ`: the code compares against the subdivision's direct database
country code only, not against the `country_aliases` closure that the
claim describes. -/
theorem C4_conflict_counterexample :
    AddressPy.normalizeF 5 sampleDB bqBoNl =
      some (.error (.conflict "BQ-BO" "country_code"
        (.str "NL") (.str "BQ"))) ∧
    (Territory.country_aliasesF 10 sampleDB "BQ-BO").isSome ∧
    "NL" ∈ (Territory.country_aliasesF 10 sampleDB "BQ-BO").getD ∅ ∧
    ("NL" : String) ≠ "BQ" := by
  refine ⟨rfl, rfl, ?_, ?_⟩ <;> decide

/-- The conflict loop errors exactly on the first violating entry, and
every error it produces is the conflict error naming the subdivision, the
component and both values. -/
theorem checkConflicts_characterization (db : DB) (a : AddressPy.Addr)
    (s : String) (sub : SubdivisionRec)
    (hgs : db.getSubdivision s = some sub) :
    ∀ pm : List (String × AddressPy.AVal),
      (∀ e ∈ pm, AddressPy.AVal.truthy e.2 = true) →
      ((∃ e, AddressPy.checkConflicts db a s pm = .error e) ↔
        ∃ cid nv, (cid, nv) ∈ pm ∧ conflictViolation a sub cid nv) ∧
      (∀ e, AddressPy.checkConflicts db a s pm = .error e →
        ∃ cid nv, (cid, nv) ∈ pm ∧
          e = .conflict s cid (.str ((a.get cid).getD "")) nv ∧
          conflictViolation a sub cid nv) := by
  intro pm
  induction pm with
  | nil =>
    intro _
    constructor
    · constructor
      · intro ⟨e, he⟩
        exact absurd he (by simp [AddressPy.checkConflicts])
      · intro ⟨cid, nv, hm, _⟩
        exact absurd hm (by simp)
    · intro e he
      exact absurd he (by simp [AddressPy.checkConflicts])
  | cons head rest ih =>
    intro hT
    obtain ⟨cid, nv⟩ := head
    have hnvT : nv.truthy = true := hT (cid, nv) (by simp)
    have ihr := ih (fun e he => hT e (by simp [he]))
    by_cases hcoll : AddressPy.truthyO (a.get cid) = true ∧
        cid ∈ AddressPy.BASE_COMPONENT_IDS
    · by_cases hcid : cid = "country_code"
      · subst hcid
        by_cases hmemv : AddressPy.AVal.str ((a.get "country_code").getD "")
            ∈ [nv, AddressPy.AVal.str sub.country_code]
        · have hstep : AddressPy.checkConflicts db a s
              (("country_code", nv) :: rest) =
              AddressPy.checkConflicts db a s rest := by
            simp only [AddressPy.checkConflicts]
            rw [if_neg (by simp [hnvT]), if_pos hcoll]
            simp [hgs, hmemv]
          have hheadnv : ¬ conflictViolation a sub "country_code" nv := by
            intro ⟨_, _, h3, h4⟩
            rcases by simpa using hmemv with h | h
            · exact h3 h
            · exact h4 ⟨rfl, by rw [h]⟩
          constructor
          · rw [hstep]
            constructor
            · intro he
              obtain ⟨c2, n2, hm, hv⟩ := (ihr.1).mp he
              exact ⟨c2, n2, by simp [hm], hv⟩
            · intro ⟨c2, n2, hm, hv⟩
              rcases List.mem_cons.mp hm with heq | hm2
              · obtain ⟨rfl, rfl⟩ := Prod.mk.inj heq
                exact absurd hv hheadnv
              · exact (ihr.1).mpr ⟨c2, n2, hm2, hv⟩
          · intro e he
            rw [hstep] at he
            obtain ⟨c2, n2, hm, hee, hv⟩ := ihr.2 e he
            exact ⟨c2, n2, by simp [hm], hee, hv⟩
        · have hstep : AddressPy.checkConflicts db a s
              (("country_code", nv) :: rest) =
              .error (.conflict s "country_code"
                (.str ((a.get "country_code").getD "")) nv) := by
            simp only [AddressPy.checkConflicts]
            rw [if_neg (by simp [hnvT]), if_pos hcoll]
            simp [hgs, hmemv]
          have hheadv : conflictViolation a sub "country_code" nv := by
            refine ⟨hcoll.1, hcoll.2, ?_, ?_⟩
            · intro hcontra
              exact hmemv (by simp [hcontra])
            · intro ⟨_, hcontra⟩
              exact hmemv (by simp [hcontra])
          constructor
          · constructor
            · intro _
              exact ⟨"country_code", nv, by simp, hheadv⟩
            · intro _
              exact ⟨_, hstep⟩
          · intro e he
            rw [hstep] at he
            have hee := Except.error.inj he
            exact ⟨"country_code", nv, by simp, hee.symm, hheadv⟩
      · by_cases hmemv : AddressPy.AVal.str ((a.get cid).getD "") ∈ [nv]
        · have hstep : AddressPy.checkConflicts db a s ((cid, nv) :: rest) =
              AddressPy.checkConflicts db a s rest := by
            simp only [AddressPy.checkConflicts]
            rw [if_neg (by simp [hnvT]), if_pos hcoll, if_neg hcid]
            have hmemv2 : AddressPy.AVal.str ((a.get cid).getD "") = nv := by
              simpa using hmemv
            simp [hmemv2]
          have hheadnv : ¬ conflictViolation a sub cid nv := by
            intro ⟨_, _, h3, _⟩
            exact h3 (by simpa using hmemv)
          constructor
          · rw [hstep]
            constructor
            · intro he
              obtain ⟨c2, n2, hm, hv⟩ := (ihr.1).mp he
              exact ⟨c2, n2, by simp [hm], hv⟩
            · intro ⟨c2, n2, hm, hv⟩
              rcases List.mem_cons.mp hm with heq | hm2
              · obtain ⟨rfl, rfl⟩ := Prod.mk.inj heq
                exact absurd hv hheadnv
              · exact (ihr.1).mpr ⟨c2, n2, hm2, hv⟩
          · intro e he
            rw [hstep] at he
            obtain ⟨c2, n2, hm, hee, hv⟩ := ihr.2 e he
            exact ⟨c2, n2, by simp [hm], hee, hv⟩
        · have hstep : AddressPy.checkConflicts db a s ((cid, nv) :: rest) =
              .error (.conflict s cid (.str ((a.get cid).getD "")) nv) := by
            simp only [AddressPy.checkConflicts]
            rw [if_neg (by simp [hnvT]), if_pos hcoll, if_neg hcid]
            have hmemv2 : ¬ AddressPy.AVal.str ((a.get cid).getD "") = nv := by
              simpa using hmemv
            simp [hmemv2]
          have hheadv : conflictViolation a sub cid nv := by
            refine ⟨hcoll.1, hcoll.2, ?_, ?_⟩
            · intro hcontra
              exact hmemv (by simp [hcontra])
            · intro ⟨hcontra, _⟩
              exact hcid hcontra
          constructor
          · constructor
            · intro _
              exact ⟨cid, nv, by simp, hheadv⟩
            · intro _
              exact ⟨_, hstep⟩
          · intro e he
            rw [hstep] at he
            have hee := Except.error.inj he
            exact ⟨cid, nv, by simp, hee.symm, hheadv⟩
    · have hstep : AddressPy.checkConflicts db a s ((cid, nv) :: rest) =
          AddressPy.checkConflicts db a s rest := by
        simp only [AddressPy.checkConflicts]
        rw [if_neg (by simp [hnvT]), if_neg hcoll]
      have hheadnv : ¬ conflictViolation a sub cid nv := by
        intro ⟨h1, h2, _, _⟩
        exact hcoll ⟨h1, h2⟩
      constructor
      · rw [hstep]
        constructor
        · intro he
          obtain ⟨c2, n2, hm, hv⟩ := (ihr.1).mp he
          exact ⟨c2, n2, by simp [hm], hv⟩
        · intro ⟨c2, n2, hm, hv⟩
          rcases List.mem_cons.mp hm with heq | hm2
          · obtain ⟨rfl, rfl⟩ := Prod.mk.inj heq
            exact absurd hv hheadnv
          · exact (ihr.1).mpr ⟨c2, n2, hm2, hv⟩
      · intro e he
        rw [hstep] at he
        obtain ⟨c2, n2, hm, hee, hv⟩ := ihr.2 e he
        exact ⟨c2, n2, by simp [hm], hee, hv⟩

/-- C4 amended: during normalization of an already-cleaned address with a
set subdivision code, a derived metadata entry colliding with a set base
component is allowed through only when the current value equals the new
value or — for `country_code` — the subdivision's own database country
code (NOT the whole `country_aliases` closure, as the claim states; see
the counterexample); otherwise normalization fails with the
`ConflictingTerritoryMetadata` error naming the subdivision, the component
and both values. -/
theorem C4_conflict_rule_amended (db : DB) (n : Nat) (a : AddressPy.Addr)
    (s : String) (sub : SubdivisionRec)
    (pm : List (String × AddressPy.AVal))
    (hprep : AddressPy.prepSteps a = a)
    (hsub : a.subdivision_code = some s) (hsne : s ≠ "")
    (hgs : db.getSubdivision s = some sub)
    (hpm : AddressPy.buildParentMetadataF n db s = some (.ok pm))
    (hTruthy : ∀ e ∈ pm, AddressPy.AVal.truthy e.2 = true) :
    ((∃ e, AddressPy.normalizeF n db a = some (.error e)) ↔
      ∃ cid nv, (cid, nv) ∈ pm ∧ conflictViolation a sub cid nv) ∧
    (∀ e, AddressPy.normalizeF n db a = some (.error e) →
      ∃ cid nv, (cid, nv) ∈ pm ∧
        e = .conflict s cid (.str ((a.get cid).getD "")) nv ∧
        conflictViolation a sub cid nv) := by
  have htr : AddressPy.truthyO a.subdivision_code = true := by
    rw [hsub]
    simpa [AddressPy.truthyO] using hsne
  have hgd : a.subdivision_code.getD "" = s := by rw [hsub]; rfl
  have hred : AddressPy.normalizeF n db a =
      (match AddressPy.checkConflicts db a s pm with
       | .error e => some (.error e)
       | .ok _ => some (.ok (AddressPy.mergeMetadata a pm, pm))) := by
    simp only [AddressPy.normalizeF, hprep]
    rw [if_pos htr, hgd, hpm]
  obtain ⟨hiff, hshape⟩ :=
    checkConflicts_characterization db a s sub hgs pm hTruthy
  cases hcc : AddressPy.checkConflicts db a s pm with
  | error e0 =>
    rw [hcc] at hred
    constructor
    · constructor
      · intro _
        exact hiff.mp ⟨e0, hcc⟩
      · intro _
        exact ⟨e0, by rw [hred]⟩
    · intro e he
      rw [hred] at he
      have he0 : e0 = e := by
        have := Option.some.inj he
        exact Except.error.inj this
      rw [← he0]
      exact hshape e0 hcc
  | ok u =>
    rw [hcc] at hred
    constructor
    · constructor
      · intro ⟨e, he⟩
        rw [hred] at he
        exact absurd (Option.some.inj he) (by simp)
      · intro hv
        obtain ⟨e, he⟩ := hiff.mpr hv
        rw [he] at hcc
        exact absurd hcc (by simp)
    · intro e he
      rw [hred] at he
      exact absurd (Option.some.inj he) (by simp)

/-- C4 witness: the amended statement applied to the address with
`subdivision_code = US-CA` and the conflicting explicit
`country_code = FR` shows that its normalization fails. -/
theorem C4_conflict_rule_amended_witness :
    ∃ e, AddressPy.normalizeF 5 sampleDB usCaFr = some (.error e) :=
  (C4_conflict_rule_amended sampleDB 5 usCaFr "US-CA"
    ⟨"US-CA", "California", "State", "", "US"⟩ usCaMetadata
    (by rfl) (by rfl) (by decide) (by rfl) (by rfl) (by decide)).1.mpr
    ⟨"country_code", .str "US", by decide,
     by decide, by decide, by decide, by decide⟩

/-- C8 witness: the contract applied to an address missing its postal code
on the concrete database. -/
theorem C8_validate_contract_witness :
    ∃ f, AddressPy.validate sampleDB missingPostal =
      .error (.missingRequiredField f) :=
  (C8_validate_contract sampleDB missingPostal).2.2.2.1.mpr
    ⟨fun h => absurd h.1 (by decide),
     fun h => absurd h.2 (by decide),
     fun h => absurd h.2.1 (by decide),
     ⟨"postal_code", by decide, by decide⟩⟩

/-- C9 witness: the contract applied to the country `TW`, whose single
candidate is the overlap subdivision `CN-71`. -/
theorem C9_default_subdivision_code_contract_witness :
    Territory.default_subdivision_code "TW" = some "CN-71" ∧
    candidateSubdivisions "TW" = ["CN-71"] :=
  ⟨rfl, ((C9_default_subdivision_code_contract "TW").1 "CN-71").mp rfl⟩

/-- C10 witness: both implementations agree on `TW`. -/
theorem C10_default_subdivision_amended_witness :
    AddressPy.default_subdivision_code "TW" =
      Territory.default_subdivision_code "TW" :=
  C10_default_subdivision_amended "TW" (by decide)
